import Mathlib

/-!
Verification of the ft8monitor core against its natural-language
specification.  The definitions below are a shallow embedding of

  * the WSJT-X telegram codec            (src/monitor/wsjtx_msg_server.py),
  * the cty.dat callsign resolver and
    decode-message classifier            (src/monitor/wsjtx_msg_server.py),
  * the minute/hour aggregation engine   (src/webserver/data_server.py).

Modelling conventions:
  * a byte is a Nat (meaningful values are < 256);
  * a Python str is a List Char (classifier) or a List Nat of Unicode
    code points (codec), since the codec manipulates code points;
  * Python float values that the code only copies verbatim (lat, lon,
    gmtoff of a cty entry) are carried as Int stand-ins;
  * an IEEE double field of the wire format is identified with its
    8-byte big-endian representation, because struct.pack and
    struct.unpack with format !d are mutually inverse byte-wise;
  * a Python crash (struct.error, AssertionError, ValueError,
    AttributeError, UnicodeDecodeError, UnicodeEncodeError) during
    encode or decode is modelled as the Option value none;
  * Python round is banker-style rounding (round half to even); the
    float division feeding it is modelled as exact rational division,
    written over integers in pyRoundQ.
-/

namespace FT8

/-! ### Big-endian byte helpers -/

/-- Big-endian bytes of a natural number, fixed width (struct.pack with
formats !B, !L, !Q). -/
def beBytes : Nat → Nat → List Nat
  | 0, _ => []
  | w + 1, n => beBytes w (n / 256) ++ [n % 256]

/-- Value of a big-endian byte string (struct.unpack). -/
def beVal (l : List Nat) : Nat :=
  l.foldl (fun a b => a * 256 + b) 0

/-- Reading a signed 32-bit value from its unsigned representation
(struct.unpack with format !l). -/
def sgn32 (u : Nat) : Int :=
  if u < 2147483648 then (u : Int) else (u : Int) - 4294967296

/-- Reading a signed 64-bit value from its unsigned representation
(struct.unpack with format !q). -/
def sgn64 (u : Nat) : Int :=
  if u < 9223372036854775808 then (u : Int) else (u : Int) - 18446744073709551616

/-- The bytes struct.pack format s emits for a given count: the payload
is truncated, or padded with zero bytes, to exactly the count. -/
def padTrunc (n : Nat) (bs : List Nat) : List Nat :=
  (bs ++ List.replicate n 0).take n

/-! ### UTF-8, as Python encodes and strictly decodes it -/

/-- Code points Python can encode to UTF-8 (no surrogates, at most
U+10FFFF). -/
def validScalar (c : Nat) : Bool :=
  decide (c < 55296) || (decide (57344 ≤ c) && decide (c ≤ 1114111))

/-- UTF-8 encoding of one code point. -/
def utf8EncodeChar (c : Nat) : List Nat :=
  if c < 128 then [c]
  else if c < 2048 then [192 + c / 64, 128 + c % 64]
  else if c < 65536 then [224 + c / 4096, 128 + (c / 64) % 64, 128 + c % 64]
  else [240 + c / 262144, 128 + (c / 4096) % 64, 128 + (c / 64) % 64, 128 + c % 64]

/-- UTF-8 encoding of a code point sequence (str.encode). -/
def utf8Encode : List Nat → List Nat
  | [] => []
  | c :: cs => utf8EncodeChar c ++ utf8Encode cs

/-- Continuation byte test. -/
def isCont (b : Nat) : Bool :=
  decide (128 ≤ b) && decide (b < 192)

/-- The code point of a two-byte UTF-8 sequence. -/
def cp2 (b0 b1 : Nat) : Nat := (b0 - 192) * 64 + (b1 - 128)

/-- The code point of a three-byte UTF-8 sequence. -/
def cp3 (b0 b1 b2 : Nat) : Nat := (b0 - 224) * 4096 + (b1 - 128) * 64 + (b2 - 128)

/-- The code point of a four-byte UTF-8 sequence. -/
def cp4 (b0 b1 b2 b3 : Nat) : Nat :=
  (b0 - 240) * 262144 + (b1 - 128) * 4096 + (b2 - 128) * 64 + (b3 - 128)

/-- Strict UTF-8 decoding, fuelled for structural recursion (every
step consumes at least one byte, so fuel = initial length always
suffices; utf8Decode below supplies it).  Rejects continuation-only
leads, overlong forms, surrogates and code points above U+10FFFF,
exactly as bytes.decode with the utf-8 codec does. -/
def utf8DecodeF : Nat → List Nat → Option (List Nat)
  | _, [] => some []
  | 0, _ :: _ => none
  | f + 1, b0 :: rest =>
    if b0 < 128 then (utf8DecodeF f rest).map (b0 :: ·)
    else if b0 < 194 then none
    else if b0 < 224 then
      if 1 ≤ rest.length ∧ isCont (rest.getD 0 0) = true then
        (utf8DecodeF f (rest.drop 1)).map (cp2 b0 (rest.getD 0 0) :: ·)
      else none
    else if b0 < 240 then
      if 2 ≤ rest.length ∧ isCont (rest.getD 0 0) = true ∧ isCont (rest.getD 1 0) = true then
        if cp3 b0 (rest.getD 0 0) (rest.getD 1 0) < 2048 ∨
            (55296 ≤ cp3 b0 (rest.getD 0 0) (rest.getD 1 0) ∧
             cp3 b0 (rest.getD 0 0) (rest.getD 1 0) < 57344) then none
        else (utf8DecodeF f (rest.drop 2)).map (cp3 b0 (rest.getD 0 0) (rest.getD 1 0) :: ·)
      else none
    else if b0 < 245 then
      if 3 ≤ rest.length ∧ isCont (rest.getD 0 0) = true ∧ isCont (rest.getD 1 0) = true ∧
          isCont (rest.getD 2 0) = true then
        if cp4 b0 (rest.getD 0 0) (rest.getD 1 0) (rest.getD 2 0) < 65536 ∨
            1114111 < cp4 b0 (rest.getD 0 0) (rest.getD 1 0) (rest.getD 2 0) then none
        else
          (utf8DecodeF f (rest.drop 3)).map
            (cp4 b0 (rest.getD 0 0) (rest.getD 1 0) (rest.getD 2 0) :: ·)
      else none
    else none

/-- Strict UTF-8 decoding of a byte string. -/
def utf8Decode (b : List Nat) : Option (List Nat) := utf8DecodeF b.length b

/-! ### Telegram field kinds and values

The format table of WSJTX_Telegram and its sub-classes uses these field
kinds (quint8 and qbool share u8, qtime shares u32). -/

inductive Fmt where
  | u8 | u32 | u64 | i32 | f64 | utf8 | optU8 | dt | color
deriving DecidableEq, Repr

/-- A decoded field value.  Python None (null string, absent optional
integer, truncated field) is the single value null. -/
inductive Val where
  | num (n : Nat)
  | inum (i : Int)
  | dbl (bs : List Nat)
  | str (cps : List Nat)
  | dtv (date : Int) (dtime : Nat) (tspec : Nat) (off : Option Int)
  | colorv (cspec alpha red green blue : Nat)
  | null
deriving DecidableEq, Repr

/-- Field serialization, mirroring WSJTX_Telegram.as_bytes together
with UTF8_String.serialize, Optional_Quint.serialize,
QDateTime.serialize and QColor.serialize.  none models a crash:
struct.pack range errors, UnicodeEncodeError, the AttributeError on a
freshly built Optional_Quint (its serialize reads self.size, which only
deserialize ever sets), and the TypeError of calling a protocol-element
class on an unusable value.  Note that UTF8_String.serialize writes
len(self.value) - the CHARACTER count - as the length prefix and then
packs the UTF-8 bytes to exactly that many bytes. -/
def serializeField : Fmt → Val → Option (List Nat)
  | .u8, .num n => if n < 256 then some [n] else none
  | .u32, .num n => if n < 4294967296 then some (beBytes 4 n) else none
  | .u64, .num n => if n < 18446744073709551616 then some (beBytes 8 n) else none
  | .i32, .inum i =>
    if -2147483648 ≤ i ∧ i < 2147483648 then
      some (beBytes 4 (i % 4294967296).toNat)
    else none
  | .f64, .dbl bs => if bs.length = 8 then some bs else none
  | .utf8, .null => some [255, 255, 255, 255]
  | .utf8, .str cps =>
    if cps.all validScalar ∧ cps.length < 4294967296 then
      some (beBytes 4 cps.length ++ padTrunc cps.length (utf8Encode cps))
    else none
  | .optU8, .null => some []
  | .dt, .dtv d t s off =>
    if (-9223372036854775808 ≤ d ∧ d < 9223372036854775808) ∧ t < 4294967296 ∧ s < 256 then
      match off with
      | none => some (beBytes 8 (d % 18446744073709551616).toNat ++ beBytes 4 t ++ [s])
      | some o =>
        if -2147483648 ≤ o ∧ o < 2147483648 then
          some (beBytes 8 (d % 18446744073709551616).toNat ++ beBytes 4 t ++ [s] ++
                beBytes 4 (o % 4294967296).toNat)
        else none
    else none
  | .color, .colorv s a r g b =>
    if s < 256 ∧ a < 65536 ∧ r < 65536 ∧ g < 65536 ∧ b < 65536 then
      some ([s] ++ beBytes 2 a ++ beBytes 2 r ++ beBytes 2 g ++ beBytes 2 b ++ beBytes 2 0)
    else none
  | _, _ => none

/-- Field deserialization, returning the value and the number of bytes
consumed (WSJTX_Telegram.deserialize advances by
value.serialization_size).  Only called on a non-empty buffer; none
models struct.error on a short or ill-sized slice, UnicodeDecodeError,
and the ValueError QDateTime.__init__ raises for timespec = 2 with an
offset present.  Optional_Quint.deserialize hands the WHOLE remaining
buffer to struct.unpack with format !B, so any remaining length other
than exactly 1 is a struct.error.  A UTF8_String consumes
4 + len(value.encode(utf-8)) bytes, re-encoding the decoded text. -/
def deserializeField : Fmt → List Nat → Option (Val × Nat)
  | .u8, b => if 1 ≤ b.length then some (.num (beVal (b.take 1)), 1) else none
  | .u32, b => if 4 ≤ b.length then some (.num (beVal (b.take 4)), 4) else none
  | .u64, b => if 8 ≤ b.length then some (.num (beVal (b.take 8)), 8) else none
  | .i32, b => if 4 ≤ b.length then some (.inum (sgn32 (beVal (b.take 4))), 4) else none
  | .f64, b => if 8 ≤ b.length then some (.dbl (b.take 8), 8) else none
  | .utf8, b =>
    if 4 ≤ b.length then
      if beVal (b.take 4) = 4294967295 then some (.null, 4)
      else if 4 + beVal (b.take 4) ≤ b.length then
        match utf8Decode ((b.drop 4).take (beVal (b.take 4))) with
        | some cps => some (.str cps, 4 + (utf8Encode cps).length)
        | none => none
      else none
    else none
  | .optU8, b => if b.length = 1 then some (.num (beVal (b.take 1)), 1) else none
  | .dt, b =>
    if 13 ≤ b.length then
      if beVal ((b.drop 12).take 1) = 2 then none
      else
        some (.dtv (sgn64 (beVal (b.take 8))) (beVal ((b.drop 8).take 4))
          (beVal ((b.drop 12).take 1)) none, 13)
    else none
  | .color, b =>
    if 11 ≤ b.length then
      some (.colorv (beVal (b.take 1)) (beVal ((b.drop 1).take 2)) (beVal ((b.drop 3).take 2))
              (beVal ((b.drop 5).take 2)) (beVal ((b.drop 7).take 2)), 11)
    else none

/-- Deserialize a field list, recording the consumed size per field.
WSJTX_Telegram.deserialize treats an exhausted buffer as the value None
for the current field (and hence for every later field): deliberate
schema compatibility. -/
def deserializeFieldsC : List Fmt → List Nat → Option (List (Val × Nat))
  | [], _ => some []
  | f :: fs, b =>
    if b = [] then (deserializeFieldsC fs []).map ((Val.null, 0) :: ·)
    else
      (deserializeField f b).bind fun p =>
        (deserializeFieldsC fs (b.drop p.2)).map (p :: ·)

/-- The decoded values of a field list. -/
def deserializeFields (fs : List Fmt) (b : List Nat) : Option (List Val) :=
  (deserializeFieldsC fs b).map (List.map Prod.fst)

/-- Total bytes consumed by a decode trace: the position of the field
boundary after its last entry. -/
def consumedOf (out : List (Val × Nat)) : Nat :=
  (out.map Prod.snd).sum

/-- Serialize a field list (as_bytes). -/
def serializeFields : List Fmt → List Val → Option (List Nat)
  | [], [] => some []
  | [], _ :: _ => none
  | _ :: _, [] => none
  | f :: fs, v :: vs =>
    match serializeField f v, serializeFields fs vs with
    | some b, some bs => some (b ++ bs)
    | _, _ => none

/-- The common header format of WSJTX_Telegram: magic, version number,
type, id. -/
def headerFmt : List Fmt := [.u32, .u32, .u32, .utf8]

/-- The wire magic 0xadbccbda. -/
def MAGIC : Nat := 0xadbccbda

/-- The variant fields a registered type tag appends after the common
header: the format tables of the sixteen WSJTX_Telegram sub-classes
(type_registry). -/
def variantFmts : Nat → Option (List Fmt)
  | 0 => some [.u32, .utf8, .utf8]
  | 1 => some [.u64, .utf8, .utf8, .utf8, .utf8, .u8, .u8, .u8, .u32, .u32,
                 .utf8, .utf8, .utf8, .u8, .utf8, .u8, .u8, .u32, .u32, .utf8, .utf8]
  | 2 => some [.u8, .u32, .i32, .f64, .u32, .utf8, .utf8, .u8, .u8]
  | 3 => some [.optU8]
  | 4 => some [.u32, .i32, .f64, .u32, .utf8, .utf8, .u8, .u8]
  | 5 => some [.dt, .utf8, .utf8, .u64, .utf8, .utf8, .utf8, .utf8, .utf8,
                 .utf8, .dt, .utf8, .utf8, .utf8, .utf8, .utf8, .utf8]
  | 6 => some []
  | 7 => some []
  | 8 => some [.u8]
  | 9 => some [.utf8, .u8]
  | 10 => some [.u8, .u32, .i32, .f64, .u64, .i32, .utf8, .utf8, .i32, .u8]
  | 11 => some [.utf8]
  | 12 => some [.utf8]
  | 13 => some [.utf8, .color, .color, .u8]
  | 14 => some [.utf8]
  | 15 => some [.utf8, .u32, .utf8, .u8, .u32, .u32, .utf8, .utf8, .u8]
  | _ => none

/-- Registered telegram layouts, indexed by type tag: the common header
followed by the variant fields. -/
def layoutOf (t : Nat) : Option (List Fmt) :=
  (variantFmts t).map (fun v => headerFmt ++ v)

/-- A decoded telegram record: the decoded type tag (none when the type
field itself deserialized as null) and the decoded field values for the
layout that was applied. -/
structure Telegram where
  tag : Option Nat
  vals : List Val
deriving DecidableEq, Repr

/-- WSJTX_Telegram.from_bytes: decode the header, check the
constructor invariants (magic must equal MAGIC, else AssertionError;
version must be a number at most schema_version_number 3, a null
version is a TypeError), then dispatch on the type tag: a registered
tag re-deserializes the full layout, an unregistered tag keeps the
header-only record. -/
def fromBytes (buf : List Nat) : Option Telegram :=
  match deserializeFields headerFmt buf with
  | some [m, v, t, _i] =>
    if m = Val.num MAGIC then
      match v with
      | .num vn =>
        if vn ≤ 3 then
          match t with
          | .num tn =>
            match layoutOf tn with
            | some l => (deserializeFields l buf).map (fun vs => ⟨some tn, vs⟩)
            | none =>
              match deserializeFields headerFmt buf with
              | some hdr => some ⟨some tn, hdr⟩
              | none => none
          | .null =>
            match deserializeFields headerFmt buf with
            | some hdr => some ⟨none, hdr⟩
            | none => none
          | _ => none
        else none
      | _ => none
    else none
  | _ => none

/-- WSJTX_Telegram.as_bytes for a record of a registered type. -/
def asBytes (tag : Nat) (vals : List Val) : Option (List Nat) :=
  match layoutOf tag with
  | some l => serializeFields l vals
  | none => none

/-! ### Well-formed field values (the amended round-trip hypothesis) -/

/-- Well-formed value for a field kind: in range for its width; strings
null or made of code points below 128 (so that the character count the
encoder writes equals the UTF-8 byte count) and shorter than the null
sentinel; optional integers null; date-times constructible (offset
none, since QDateTime.__init__ raises for any offset) with a
non-timezone timespec. -/
def wfField : Fmt → Val → Bool
  | .u8, .num n => decide (n < 256)
  | .u32, .num n => decide (n < 4294967296)
  | .u64, .num n => decide (n < 18446744073709551616)
  | .i32, .inum i => decide (-2147483648 ≤ i ∧ i < 2147483648)
  | .f64, .dbl bs => decide (bs.length = 8)
  | .utf8, .null => true
  | .utf8, .str cps => decide (cps.length < 4294967295) && cps.all (fun c => decide (c < 128))
  | .optU8, .null => true
  | .dt, .dtv d t s off =>
    decide (off = none) && decide (s ≠ 2) &&
    decide (-9223372036854775808 ≤ d ∧ d < 9223372036854775808) &&
    decide (t < 4294967296) && decide (s < 256)
  | .color, .colorv s a r g b =>
    decide (s < 256) && decide (a < 65536) && decide (r < 65536) &&
    decide (g < 65536) && decide (b < 65536)
  | _, _ => false

/-- Well-formed value list for a layout.  An optional integer field is
only ever the final field of a registered layout (WSJTX_Clear), which
the condition records. -/
def wfFields : List Fmt → List Val → Bool
  | [], [] => true
  | [], _ :: _ => false
  | _ :: _, [] => false
  | f :: fs, v :: vs =>
    wfField f v && (decide (f ≠ Fmt.optU8) || decide (fs = [])) && wfFields fs vs

/-- The header values a constructible telegram of the given tag carries:
the fixed magic, a version number at most 3, and its own type tag. -/
def headerOK (tag : Nat) : List Val → Bool
  | .num m :: .num vn :: .num t :: _ =>
    decide (m = MAGIC) && decide (vn ≤ 3) && decide (t = tag)
  | _ => false

/-! ### Country/zone resolver (class CTY) -/

/-- Uppercase letter. -/
def isUpperC (c : Char) : Bool := decide ('A' ≤ c) && decide (c ≤ 'Z')

/-- Decimal digit. -/
def isDigitC (c : Char) : Bool := decide ('0' ≤ c) && decide (c ≤ '9')

/-- Character class `[A-Z0-9]` of the callsign grammar. -/
def isAlnumU (c : Char) : Bool := isUpperC c || isDigitC c

/-- A cty.dat record as callsign_lookup returns it.  The lat, lon and
gmtoff floats are only copied verbatim by the code, so Int stand-ins
carry them here. -/
structure CtyEntry where
  country : List Char
  cq : List Char
  itu : List Char
  continent : List Char
  lat : Int
  lon : Int
  gmtoff : Int
deriving DecidableEq

/-- Python dict membership lookup (first binding wins; the tables are
built first-occurrence-wins, so keys are unique anyway). -/
def lookupA {κ ν : Type} [DecidableEq κ] (k : κ) : List (κ × ν) → Option ν
  | [] => none
  | (k', v) :: rest => if k' = k then some v else lookupA k rest

/-- Replace the binding of a present key, keeping its position (Python
in-place dict update); append when absent. -/
def setA {κ ν : Type} [DecidableEq κ] (l : List (κ × ν)) (k : κ) (v : ν) : List (κ × ν) :=
  match l with
  | [] => [(k, v)]
  | (k', v') :: rest => if k' = k then (k, v) :: rest else (k', v') :: setA rest k v

/-- The CTY lookup state: the exact-callsign table, the prefix table
and prf_max, the longest prefix length seen while loading. -/
structure CTYTable where
  exact : List (List Char × CtyEntry)
  pfxTab : List (List Char × CtyEntry)
  prf_max : Nat
deriving DecidableEq

/-- The scan `for n in reversed(range(self.prf_max))` of
callsign_lookup: try prefix lengths n+1 = hi, hi-1, ..., 1. -/
def scanPfx (t : CTYTable) (cs : List Char) : Nat → Option CtyEntry
  | 0 => none
  | n + 1 =>
    match lookupA (cs.take (n + 1)) t.pfxTab with
    | some e => some e
    | none => scanPfx t cs n

/-- CTY.callsign_lookup: exact table first, then the longest-first
prefix scan, then None. -/
def callsign_lookup (t : CTYTable) (cs : List Char) : Option CtyEntry :=
  match lookupA cs t.exact with
  | some e => some e
  | none => scanPfx t cs t.prf_max

/-- A demonstration entry: the United States record behind prefix K. -/
def eUSA : CtyEntry :=
  ⟨(r"United States").toList, (r"5").toList, (r"8").toList, (r"NA").toList, 38, 97, 5⟩

/-- A demonstration entry: the Hawaii record behind prefix KH6. -/
def eHawaii : CtyEntry :=
  ⟨(r"Hawaii").toList, (r"31").toList, (r"61").toList, (r"OC").toList, 21, 158, 10⟩

/-- A demonstration entry: a distinct record behind the longer prefix
KH6Z. -/
def eHawaiiZ : CtyEntry :=
  ⟨(r"Hawaii KH6Z").toList, (r"31").toList, (r"61").toList, (r"OC").toList, 22, 157, 10⟩

/-- A demonstration entry: the exact-table record for OE3RSU. -/
def eAustria : CtyEntry :=
  ⟨(r"Austria").toList, (r"15").toList, (r"28").toList, (r"EU").toList, 48, -16, -1⟩

/-- A demonstration entry: a distinct record behind prefix OE, which
exact-match precedence must NOT return for OE3RSU. -/
def eAustriaP : CtyEntry :=
  ⟨(r"Austria by prefix").toList, (r"15").toList, (r"28").toList, (r"EU").toList, 47, -15, -1⟩

/-- The demonstration CTY table of the spec: exact entry OE3RSU and
prefixes K, KH6, KH6Z, OE, with prf_max = 4 (the longest prefix
loaded). -/
def demoCTY : CTYTable :=
  ⟨[((r"OE3RSU").toList, eAustria)],
   [((r"K").toList, eUSA), ((r"KH6").toList, eHawaii), ((r"KH6Z").toList, eHawaiiZ),
    ((r"OE").toList, eAustriaP)], 4⟩

/-! ### Message classifier (CTY.parse_wsjtx_decode_msg) -/

/-- Split a token at every slash, keeping empty segments (never
returns an empty list). -/
def splitSlash : List Char → List (List Char)
  | [] => [[]]
  | c :: rest =>
    match splitSlash rest with
    | t :: ts => if c = '/' then [] :: t :: ts else (c :: t) :: ts
    | [] => [[]]

/-- Membership in the core-callsign language
`[A-Z0-9]{1,3}[0-9][A-Z0-9]{0,3}[A-Z]` of re_full_callsign: some split
point i in 1..3 carries i leading alphanumerics, then a digit, then at
most three alphanumerics, then a final letter. -/
def isCore (c : List Char) : Bool :=
  (List.range 3).any fun i0 =>
    let i := i0 + 1
    decide (i + 2 ≤ c.length) && decide (c.length ≤ i + 5) &&
    (c.take i).all isAlnumU &&
    (match c.get? i with | some d => isDigitC d | none => false) &&
    ((c.drop (i + 1)).dropLast.all isAlnumU) &&
    (match c.getLast? with | some z => isUpperC z | none => false)

/-- Membership in the language of re_full_callsign
`^((\d|[A-Z])+\/)?([A-Z0-9]{1,3}[0-9][A-Z0-9]{0,3}[A-Z])(\/(\d|[A-Z])+)?(\/(\d|[A-Z])+)?$`:
a core segment with an optional alphanumeric prefix segment and up to
two alphanumeric suffix segments, slash-separated.  re.match with the
anchors holds exactly on language membership, which the slash-segment
case split below decides. -/
def isFullCallsign (t : List Char) : Bool :=
  match splitSlash t with
  | [a] => isCore a
  | [a, b] =>
    (decide (a ≠ []) && a.all isAlnumU && isCore b) ||
    (isCore a && decide (b ≠ []) && b.all isAlnumU)
  | [a, b, c] =>
    (decide (a ≠ []) && a.all isAlnumU && isCore b && decide (c ≠ []) && c.all isAlnumU) ||
    (isCore a && decide (b ≠ []) && b.all isAlnumU && decide (c ≠ []) && c.all isAlnumU)
  | [a, b, c, d] =>
    decide (a ≠ []) && a.all isAlnumU && isCore b &&
    decide (c ≠ []) && c.all isAlnumU && decide (d ≠ []) && d.all isAlnumU
  | _ => false

/-- Membership in the language of re_indicator
`^(\d{3})$|^([A-Z]{1,4})$`. -/
def isIndicator (t : List Char) : Bool :=
  (decide (t.length = 3) && t.all isDigitC) ||
  (decide (1 ≤ t.length) && decide (t.length ≤ 4) && t.all isUpperC)

/-- Membership in the language of re_grid `^[A-R][A-R]\d{2}$`. -/
def isGrid (t : List Char) : Bool :=
  match t with
  | [a, b, c, d] =>
    decide ('A' ≤ a) && decide (a ≤ 'R') && decide ('A' ≤ b) && decide (b ≤ 'R') &&
    isDigitC c && isDigitC d
  | _ => false

/-- Python str.split() whitespace (the ASCII whitespace class). -/
def isPySpace (c : Char) : Bool :=
  decide (c = ' ') || decide (c = '\t') || decide (c = '\n') || decide (c = '\r') ||
  decide (c.toNat = 11) || decide (c.toNat = 12)

/-- Python str.split() with no argument: tokens between whitespace
runs, no empty tokens. -/
def pySplit (s : List Char) : List (List Char) :=
  let p := s.foldr
    (fun c acc =>
      if isPySpace c then (([] : List Char), if acc.1 = [] then acc.2 else acc.1 :: acc.2)
      else (c :: acc.1, acc.2))
    ([], [])
  if p.1 = [] then p.2 else p.1 :: p.2

/-- The record parse_wsjtx_decode_msg returns. -/
structure ParsedMsg where
  err : Option (List Char)
  raw_message : List Char
  mtype : List Char
  caller : Option (List Char)
  country : Option (List Char)
  zone_cq : Option (List Char)
  zone_itu : Option (List Char)
  continent : Option (List Char)
  lat : Option Int
  lon : Option Int
  gmtoff : Option Int
  grid : Option (List Char)
  peer : Option (List Char)
deriving DecidableEq

/-- The mtype value UNKNOWN. -/
def mUNKNOWN : List Char := (r"UNKNOWN").toList

/-- The mtype value the source stores for a reply (its spelling of the
reply role is the string REPLAY). -/
def mREPLAY : List Char := (r"REPLAY").toList

/-- Token CQ. -/
def tokCQ : List Char := (r"CQ").toList

/-- Token QRZ. -/
def tokQRZ : List Char := (r"QRZ").toList

/-- Token DE. -/
def tokDE : List Char := (r"DE").toList

/-- Token RR73. -/
def tokRR73 : List Char := (r"RR73").toList

/-- Error text for an empty message. -/
def errEmptyMsg : List Char := (r"empty message").toList

/-- Error text for an unknown message. -/
def errUnknown (msg : List Char) : List Char := (r"Unknown message: ").toList ++ msg

/-- The initial pm dict. -/
def initPM (msg : List Char) : ParsedMsg :=
  ⟨none, msg, mUNKNOWN, none, none, none, none, none, none, none, none, none, none⟩

/-- Fill the sender geography fields from a callsign lookup, when it
finds a record. -/
def applyLookup (pm : ParsedMsg) (t : CTYTable) (c : List Char) : ParsedMsg :=
  match callsign_lookup t c with
  | none => pm
  | some e =>
    { pm with
      country := some e.country
      zone_cq := some e.cq
      zone_itu := some e.itu
      continent := some e.continent
      lat := some e.lat
      lon := some e.lon
      gmtoff := some e.gmtoff }

/-- The marginal-decode strip test: last token starts with the letter a
or is the single character question mark. -/
def stripTok (t : List Char) : Bool :=
  (match t with | c :: _ => decide (c = 'a') | [] => false) || decide (t = ['?'])

/-- CTY.parse_wsjtx_decode_msg, branch for branch. -/
def parse_wsjtx_decode_msg (t : CTYTable) (msg : List Char) : ParsedMsg :=
  let pm := initPM msg
  if msg.length = 0 then { pm with err := some errEmptyMsg }
  else if msg.contains ';' then { pm with err := some (errUnknown msg) }
  else
    match pySplit msg with
    | [] => { pm with err := some (errUnknown msg) }
    | l0 :: ls0 =>
      let l := if stripTok ((l0 :: ls0).getLastD []) then (l0 :: ls0).dropLast else l0 :: ls0
      match l with
      | [] => { pm with err := some (errUnknown msg) }
      | t0 :: rest =>
        if t0 = tokCQ ∨ t0 = tokQRZ ∨ t0 = tokDE then
          let pm1 := { pm with mtype := t0 }
          match rest with
          | [] => { pm1 with err := some (errUnknown msg) }
          | t1 :: rest1 =>
            match (if isIndicator t1 then
                     (match rest1 with | [] => none | t2 :: rest2 => some (t2, rest2))
                   else some (t1, rest1)) with
            | none => { pm1 with err := some (errUnknown msg) }
            | some (c0, restc) =>
              if isFullCallsign c0 then
                let pm2 := applyLookup { pm1 with caller := some c0 } t c0
                match restc with
                | [] => pm2
                | p0 :: restp =>
                  if isFullCallsign p0 then
                    let pm3 := { pm2 with peer := some p0 }
                    match restp with
                    | g0 :: _ => if isGrid g0 then { pm3 with grid := some g0 } else pm3
                    | [] => pm3
                  else if isGrid p0 then { pm2 with grid := some p0 } else pm2
              else { pm1 with err := some (errUnknown msg) }
        else
          match rest with
          | [] => pm
          | t1 :: rest1 =>
            if isFullCallsign t0 then
              let pm2 := applyLookup { pm with caller := some t0 } t t0
              if isFullCallsign t1 then
                let pm3 := { pm2 with mtype := mREPLAY, peer := some t1 }
                match rest1 with
                | g0 :: _ =>
                  if isGrid g0 && decide (g0 ≠ tokRR73) then { pm3 with grid := some g0 } else pm3
                | [] => pm3
              else if isGrid t1 then { pm2 with grid := some t1 } else pm2
            else pm

/-! ### Aggregation engine (Data_Server.save_monitor_data) -/

/-- The statistics-relevant projection of a Monitor_Message: capture
time, snr, and the resolved caller, country and cq zone.  The other
fields ride along inside the stored message list and never influence a
bucket statistic. -/
structure MMsg where
  gtime : Nat
  snr : Int
  caller : Option (List Char)
  country : Option (List Char)
  cq : Option (List Char)
deriving DecidableEq

/-- The counter-map update `d[k] = n if d.get(k) is None else d[k] + n`
(new keys append in insertion order). -/
def addCount (m : List (List Char × Nat)) (k : List Char) (n : Nat) : List (List Char × Nat) :=
  match m with
  | [] => [(k, n)]
  | (k', v) :: rest => if k' = k then (k', v + n) :: rest else (k', v) :: addCount rest k n

/-- Key-wise sum of a counter map into a base map. -/
def mergeCounts (base add : List (List Char × Nat)) : List (List Char × Nat) :=
  add.foldl (fun b p => addCount b p.1 p.2) base

/-- One in-progress minute group of save_monitor_data; snr holds the
running SUM of the snr values until the loop at the write-out divides
it by the total. -/
structure Group where
  messages : List MMsg
  total : Nat
  snr : Int
  countries : List (List Char × Nat)
  cqs : List (List Char × Nat)
  callers : List (List Char × Nat)
deriving DecidableEq

/-- One step of the grouping loop of save_monitor_data: messages with a
null caller are skipped; m_begin and m_end track min and max minute
(seeded by the zero test the code uses). -/
def groupStep (acc : List (Nat × Group) × Nat × Nat) (m : MMsg) :
    List (Nat × Group) × Nat × Nat :=
  match m.caller with
  | none => acc
  | some c =>
    let mins := acc.1
    let mb := acc.2.1
    let me := acc.2.2
    let mt := m.gtime - m.gtime % 60
    let mb' := if mb = 0 then mt else min mb mt
    let me' := if me = 0 then mt else max me mt
    let mins' :=
      match lookupA mt mins with
      | none =>
        mins ++ [(mt, ⟨[m], 1, m.snr,
          (match m.country with | some x => [(x, 1)] | none => []),
          (match m.cq with | some x => [(x, 1)] | none => []),
          [(c, 1)]⟩)]
      | some g =>
        setA mins mt
          { g with
            messages := g.messages ++ [m]
            total := g.total + 1
            snr := g.snr + m.snr
            countries := (match m.country with
                          | some x => addCount g.countries x 1
                          | none => g.countries)
            cqs := (match m.cq with
                    | some x => addCount g.cqs x 1
                    | none => g.cqs)
            callers := addCount g.callers c 1 }
    (mins', mb', me')

/-- The grouping loop of save_monitor_data: minute groups in insertion
order plus (m_begin, m_end). -/
def groupMinutes (msgs : List MMsg) : List (Nat × Group) × Nat × Nat :=
  msgs.foldl groupStep ([], 0, 0)

/-- Python round on the exact rational num/den: banker rounding, half
to even.  The reachable calls always have den positive; den = 0 is
given an arbitrary total value.  (Python evaluates the quotient in
floating point; the model uses the exact rational.) -/
def pyRoundQ (num den : Int) : Int :=
  if den = 0 then 0
  else
    let f := num.fdiv den
    let r2 := 2 * (num - f * den)
    if r2 < den then f else if den < r2 then f + 1 else if f % 2 = 0 then f else f + 1

/-- A ft8mon_minutes row for one (monitor, band), keyed by ctime.  The
messages JSON string round-trips through dataclass fields, so the model
stores the message list itself. -/
structure MinRec where
  ctime : Nat
  messages : List MMsg
  total : Nat
  snr : Int
  countries : List (List Char × Nat)
  cqs : List (List Char × Nat)
  callers : List (List Char × Nat)
deriving DecidableEq

/-- A ft8mon_hours row for one (monitor, band), keyed by ctime. -/
structure HourRec where
  ctime : Nat
  total : Nat
  snr : Int
  countries : List (List Char × Nat)
  cqs : List (List Char × Nat)
deriving DecidableEq

/-- The persisted state for one (monitor, band). -/
structure Store where
  mins : List MinRec
  hours : List HourRec
deriving DecidableEq

/-- db_read_minutes: ctime in the inclusive range. -/
def db_read_minutes (st : Store) (b e : Nat) : List MinRec :=
  st.mins.filter (fun r => decide (b ≤ r.ctime) && decide (r.ctime ≤ e))

/-- db_read_hours: ctime in the inclusive range. -/
def db_read_hours (st : Store) (b e : Nat) : List HourRec :=
  st.hours.filter (fun r => decide (b ≤ r.ctime) && decide (r.ctime ≤ e))

/-- Data_Server.fetch_in_minutes: floor the bounds to the minute, then
read. -/
def fetch_in_minutes (st : Store) (b e : Nat) : List MinRec :=
  db_read_minutes st (if b % 60 = 0 then b else b - b % 60)
    (if e % 60 = 0 then e else e - e % 60)

/-- Data_Server.fetch_in_hours: floor the bounds to the hour, then
read. -/
def fetch_in_hours (st : Store) (b e : Nat) : List HourRec :=
  db_read_hours st (if b % 3600 = 0 then b else b - b % 3600)
    (if e % 3600 = 0 then e else e - e % 3600)

/-- db_upsert_minute: update the row with this ctime when present,
insert otherwise. -/
def upsertMin (ms : List MinRec) (r : MinRec) : List MinRec :=
  if ms.any (fun x => decide (x.ctime = r.ctime)) then
    ms.map (fun x => if x.ctime = r.ctime then r else x)
  else ms ++ [r]

/-- db_upsert_hour: update the row with this ctime when present, insert
otherwise. -/
def upsertHour (hs : List HourRec) (r : HourRec) : List HourRec :=
  if hs.any (fun x => decide (x.ctime = r.ctime)) then
    hs.map (fun x => if x.ctime = r.ctime then r else x)
  else hs ++ [r]

/-- The idle minute record save_monitor_data writes for a silent
minute. -/
def idleMin (t : Nat) : MinRec := ⟨t, [], 0, 0, [], [], []⟩

/-- The idle hour record save_monitor_data writes for a silent hour. -/
def idleHour (t : Nat) : HourRec := ⟨t, 0, 0, [], []⟩

/-- The per-group body of the minute loop: round the group mean, fetch
the minute, then insert a fresh row or merge into the fetched first
row (weighted mean with the old total, total sum, key-wise counter
sums, concatenated message list). -/
def processMinute (st : Store) (mt : Nat) (g : Group) : Store :=
  let gmean := pyRoundQ g.snr (g.total : Int)
  match fetch_in_minutes st mt mt with
  | [] =>
    { st with mins := upsertMin st.mins ⟨mt, g.messages, g.total, gmean, g.countries, g.cqs, g.callers⟩ }
  | dbrec :: _ =>
    let merged : MinRec :=
      { dbrec with
        messages := dbrec.messages ++ g.messages
        snr := pyRoundQ (dbrec.snr * (dbrec.total : Int) + gmean * (g.total : Int))
                 ((dbrec.total : Int) + (g.total : Int))
        total := dbrec.total + g.total
        countries := mergeCounts dbrec.countries g.countries
        cqs := mergeCounts dbrec.cqs g.cqs
        callers := mergeCounts dbrec.callers g.callers }
    { st with mins := upsertMin st.mins merged }

/-- One step of the hr_nm accumulation loop: note the code increments
the total BEFORE computing the running mean, so the already-incremented
total weights the old mean and inflates the denominator. -/
def hourStep (acc : List (Nat × HourRec)) (p : Nat × Group) : List (Nat × HourRec) :=
  let mt := p.1
  let g := p.2
  let h := mt - mt % 3600
  let cur := (lookupA h acc).getD (idleHour h)
  let gmean := pyRoundQ g.snr (g.total : Int)
  let t' := cur.total + g.total
  let snr' := pyRoundQ (cur.snr * (t' : Int) + gmean * (g.total : Int))
                ((t' : Int) + (g.total : Int))
  setA acc h
    { cur with
      total := t'
      snr := snr'
      countries := mergeCounts cur.countries g.countries
      cqs := mergeCounts cur.cqs g.cqs }

/-- Merging an hr_nm hour record into a fetched db hour record (here
the mean uses the pre-update total). -/
def mergeHourDb (rec c : HourRec) : HourRec :=
  { rec with
    snr := pyRoundQ (rec.snr * (rec.total : Int) + c.snr * (c.total : Int))
             ((rec.total : Int) + (c.total : Int))
    total := rec.total + c.total
    countries := mergeCounts rec.countries c.countries
    cqs := mergeCounts rec.cqs c.cqs }

/-- Data_Server.save_monitor_data for one (monitor, band), with the
wall clock passed in as now.  Minute phase: group, then write or merge
each minute; an all-skipped batch writes an idle minute for the current
minute when none exists.  Hour phase: m_begin is floored to the hour
and ONLY that single hour is fetched into hr_db; every touched hour
from hr_nm is then written, merging only when it appeared in that one
fetched hour. -/
def save_monitor_data (st : Store) (now : Nat) (msgs : List MMsg) : Store :=
  let gr := groupMinutes msgs
  let mins := gr.1
  let stage :=
    if mins = [] then
      let t := now - now % 60
      (if fetch_in_minutes st t t = [] then
         { st with mins := upsertMin st.mins (idleMin t) }
       else st, t)
    else
      (mins.foldl (fun acc p => processMinute acc p.1 p.2) st, gr.2.1)
  let st1 := stage.1
  let hb := stage.2 - stage.2 % 3600
  let hrdb : List (Nat × HourRec) :=
    (fetch_in_hours st1 hb hb).foldl (fun a r => setA a r.ctime r) []
  let hrnm : List (Nat × HourRec) := mins.foldl hourStep []
  if hrnm = [] then
    if hrdb = [] then { st1 with hours := upsertHour st1.hours (idleHour hb) } else st1
  else
    hrnm.foldl
      (fun acc p =>
        match lookupA p.1 hrdb with
        | none => { acc with hours := upsertHour acc.hours p.2 }
        | some rec => { acc with hours := upsertHour acc.hours (mergeHourDb rec p.2) })
      st1

/-- The total of the hour bucket stored for hour h. -/
def hourTotalAt (st : Store) (h : Nat) : Option Nat :=
  (st.hours.find? (fun r => decide (r.ctime = h))).map (fun r => r.total)

/-- The sum of the totals of all stored minute buckets whose minute
falls in hour h. -/
def minuteTotalsInHour (st : Store) (h : Nat) : Nat :=
  ((st.mins.filter (fun r => decide (r.ctime - r.ctime % 3600 = h))).map (fun r => r.total)).sum

/-! ## Lemmas: bytes -/

theorem beBytes_length (w n : Nat) : (beBytes w n).length = w := by
  induction w generalizing n with
  | zero => rfl
  | succ w ih => simp [beBytes, ih]

theorem beVal_snoc (l : List Nat) (x : Nat) : beVal (l ++ [x]) = beVal l * 256 + x := by
  simp [beVal, List.foldl_append]

theorem beVal_beBytes (w n : Nat) (h : n < 256 ^ w) : beVal (beBytes w n) = n := by
  induction w generalizing n with
  | zero =>
    simp only [beBytes, beVal, List.foldl_nil]
    simp only [pow_zero] at h
    omega
  | succ w ih =>
    have h2 : n / 256 < 256 ^ w := by
      rw [pow_succ] at h
      exact (Nat.div_lt_iff_lt_mul (by norm_num)).mpr h
    rw [beBytes, beVal_snoc, ih _ h2]
    omega

theorem sgn32_emod (i : Int) (h1 : -2147483648 ≤ i) (h2 : i < 2147483648) :
    sgn32 ((i % 4294967296).toNat) = i := by
  unfold sgn32
  split <;> omega

theorem sgn64_emod (i : Int) (h1 : -9223372036854775808 ≤ i)
    (h2 : i < 9223372036854775808) :
    sgn64 ((i % 18446744073709551616).toNat) = i := by
  unfold sgn64
  split <;> omega

/-! ## Lemmas: UTF-8 -/

theorem utf8Encode_ascii : ∀ cps : List Nat, (∀ c ∈ cps, c < 128) → utf8Encode cps = cps := by
  intro cps h
  induction cps with
  | nil => rfl
  | cons c cs ih =>
    have hc : c < 128 := h c (by simp)
    simp only [utf8Encode, utf8EncodeChar, if_pos hc]
    simp [ih (fun x hx => h x (by simp [hx]))]

theorem utf8Decode_getD_drop1 (l : List Nat) (h : 1 ≤ l.length) :
    l.getD 0 0 :: l.drop 1 = l := by
  cases l with
  | nil => simp at h
  | cons a t => simp [List.getD]

theorem utf8Decode_getD_drop2 (l : List Nat) (h : 2 ≤ l.length) :
    l.getD 0 0 :: l.getD 1 0 :: l.drop 2 = l := by
  cases l with
  | nil => simp at h
  | cons a t =>
    simp only [List.getD_cons_zero, List.getD_cons_succ, List.drop_succ_cons]
    simp at h
    rw [utf8Decode_getD_drop1 t (by omega)]

theorem utf8Decode_getD_drop3 (l : List Nat) (h : 3 ≤ l.length) :
    l.getD 0 0 :: l.getD 1 0 :: l.getD 2 0 :: l.drop 3 = l := by
  cases l with
  | nil => simp at h
  | cons a t =>
    simp only [List.getD_cons_zero, List.getD_cons_succ, List.drop_succ_cons]
    simp at h
    rw [utf8Decode_getD_drop2 t (by omega)]

theorem utf8DecodeF_ascii :
    ∀ (f : Nat) (cps : List Nat), cps.length ≤ f → (∀ c ∈ cps, c < 128) →
      utf8DecodeF f cps = some cps := by
  intro f
  induction f with
  | zero =>
    intro cps hl _
    match cps with
    | [] => rfl
    | _ :: _ => simp at hl
  | succ f ih =>
    intro cps hl h
    match cps with
    | [] => rfl
    | c :: cs =>
      have hc : c < 128 := h c (by simp)
      rw [utf8DecodeF, if_pos hc, ih cs (by simp at hl; omega) (fun x hx => h x (by simp [hx]))]
      rfl

theorem utf8Decode_ascii (cps : List Nat) (h : ∀ c ∈ cps, c < 128) :
    utf8Decode cps = some cps :=
  utf8DecodeF_ascii cps.length cps (le_refl _) h

theorem utf8EncodeChar_cp2 (b0 b1 : Nat) (h0 : 194 ≤ b0) (h1 : b0 < 224)
    (hc : isCont b1 = true) :
    utf8EncodeChar (cp2 b0 b1) = [b0, b1] := by
  have hb1 : 128 ≤ b1 ∧ b1 < 192 := by simpa [isCont] using hc
  unfold utf8EncodeChar cp2
  rw [if_neg (by omega), if_pos (by omega)]
  have e1 : 192 + ((b0 - 192) * 64 + (b1 - 128)) / 64 = b0 := by omega
  have e2 : 128 + ((b0 - 192) * 64 + (b1 - 128)) % 64 = b1 := by omega
  rw [e1, e2]

theorem utf8EncodeChar_cp3 (b0 b1 b2 : Nat) (h0 : 224 ≤ b0) (h1 : b0 < 240)
    (hc1 : isCont b1 = true) (hc2 : isCont b2 = true)
    (hlo : ¬cp3 b0 b1 b2 < 2048) :
    utf8EncodeChar (cp3 b0 b1 b2) = [b0, b1, b2] := by
  have hb1 : 128 ≤ b1 ∧ b1 < 192 := by simpa [isCont] using hc1
  have hb2 : 128 ≤ b2 ∧ b2 < 192 := by simpa [isCont] using hc2
  unfold cp3 at hlo
  unfold utf8EncodeChar cp3
  rw [if_neg (by omega), if_neg (by omega), if_pos (by omega)]
  have e1 : 224 + ((b0 - 224) * 4096 + (b1 - 128) * 64 + (b2 - 128)) / 4096 = b0 := by omega
  have e2 : 128 + ((b0 - 224) * 4096 + (b1 - 128) * 64 + (b2 - 128)) / 64 % 64 = b1 := by omega
  have e3 : 128 + ((b0 - 224) * 4096 + (b1 - 128) * 64 + (b2 - 128)) % 64 = b2 := by omega
  rw [e1, e2, e3]

theorem utf8EncodeChar_cp4 (b0 b1 b2 b3 : Nat) (h0 : 240 ≤ b0) (h1 : b0 < 245)
    (hc1 : isCont b1 = true) (hc2 : isCont b2 = true) (hc3 : isCont b3 = true)
    (hlo : ¬cp4 b0 b1 b2 b3 < 65536) :
    utf8EncodeChar (cp4 b0 b1 b2 b3) = [b0, b1, b2, b3] := by
  have hb1 : 128 ≤ b1 ∧ b1 < 192 := by simpa [isCont] using hc1
  have hb2 : 128 ≤ b2 ∧ b2 < 192 := by simpa [isCont] using hc2
  have hb3 : 128 ≤ b3 ∧ b3 < 192 := by simpa [isCont] using hc3
  unfold cp4 at hlo
  unfold utf8EncodeChar cp4
  rw [if_neg (by omega), if_neg (by omega), if_neg (by omega)]
  have e1 :
      240 + ((b0 - 240) * 262144 + (b1 - 128) * 4096 + (b2 - 128) * 64 + (b3 - 128)) / 262144 = b0 := by
    omega
  have e2 :
      128 + ((b0 - 240) * 262144 + (b1 - 128) * 4096 + (b2 - 128) * 64 + (b3 - 128)) / 4096 % 64 = b1 := by
    omega
  have e3 :
      128 + ((b0 - 240) * 262144 + (b1 - 128) * 4096 + (b2 - 128) * 64 + (b3 - 128)) / 64 % 64 = b2 := by
    omega
  have e4 :
      128 + ((b0 - 240) * 262144 + (b1 - 128) * 4096 + (b2 - 128) * 64 + (b3 - 128)) % 64 = b3 := by
    omega
  rw [e1, e2, e3, e4]

theorem utf8Encode_of_decodeF :
    ∀ (f : Nat) (b cps : List Nat), utf8DecodeF f b = some cps → utf8Encode cps = b := by
  intro f
  induction f with
  | zero =>
    intro b cps h
    match b with
    | [] =>
      simp only [utf8DecodeF, Option.some.injEq] at h
      subst h; rfl
    | _ :: _ => exact Option.noConfusion h
  | succ f ih =>
    intro b cps h
    match b with
    | [] =>
      simp only [utf8DecodeF, Option.some.injEq] at h
      subst h; rfl
    | b0 :: rest =>
      rw [utf8DecodeF] at h
      by_cases h0 : b0 < 128
      · rw [if_pos h0] at h
        rcases Option.map_eq_some'.mp h with ⟨cs, hcs, rfl⟩
        rw [utf8Encode, ih rest cs hcs, utf8EncodeChar, if_pos h0]
        rfl
      · rw [if_neg h0] at h
        by_cases h1 : b0 < 194
        · rw [if_pos h1] at h; exact Option.noConfusion h
        · rw [if_neg h1] at h
          by_cases h2 : b0 < 224
          · rw [if_pos h2] at h
            by_cases hg : 1 ≤ rest.length ∧ isCont (rest.getD 0 0) = true
            · rw [if_pos hg] at h
              rcases Option.map_eq_some'.mp h with ⟨cs, hcs, rfl⟩
              rw [utf8Encode, ih _ cs hcs, utf8EncodeChar_cp2 b0 _ (by omega) h2 hg.2]
              show b0 :: rest.getD 0 0 :: rest.drop 1 = b0 :: rest
              rw [utf8Decode_getD_drop1 rest hg.1]
            · rw [if_neg hg] at h; exact Option.noConfusion h
          · rw [if_neg h2] at h
            by_cases h3 : b0 < 240
            · rw [if_pos h3] at h
              by_cases hg : 2 ≤ rest.length ∧ isCont (rest.getD 0 0) = true ∧
                  isCont (rest.getD 1 0) = true
              · rw [if_pos hg] at h
                by_cases hlo : cp3 b0 (rest.getD 0 0) (rest.getD 1 0) < 2048 ∨
                    (55296 ≤ cp3 b0 (rest.getD 0 0) (rest.getD 1 0) ∧
                     cp3 b0 (rest.getD 0 0) (rest.getD 1 0) < 57344)
                · rw [if_pos hlo] at h; exact Option.noConfusion h
                · rw [if_neg hlo] at h
                  rcases Option.map_eq_some'.mp h with ⟨cs, hcs, rfl⟩
                  rw [utf8Encode, ih _ cs hcs,
                    utf8EncodeChar_cp3 b0 _ _ (by omega) h3 hg.2.1 hg.2.2 (fun hx => hlo (Or.inl hx))]
                  show b0 :: rest.getD 0 0 :: rest.getD 1 0 :: rest.drop 2 = b0 :: rest
                  rw [utf8Decode_getD_drop2 rest hg.1]
              · rw [if_neg hg] at h; exact Option.noConfusion h
            · rw [if_neg h3] at h
              by_cases h4 : b0 < 245
              · rw [if_pos h4] at h
                by_cases hg : 3 ≤ rest.length ∧ isCont (rest.getD 0 0) = true ∧
                    isCont (rest.getD 1 0) = true ∧ isCont (rest.getD 2 0) = true
                · rw [if_pos hg] at h
                  by_cases hlo : cp4 b0 (rest.getD 0 0) (rest.getD 1 0) (rest.getD 2 0) < 65536 ∨
                      1114111 < cp4 b0 (rest.getD 0 0) (rest.getD 1 0) (rest.getD 2 0)
                  · rw [if_pos hlo] at h; exact Option.noConfusion h
                  · rw [if_neg hlo] at h
                    rcases Option.map_eq_some'.mp h with ⟨cs, hcs, rfl⟩
                    rw [utf8Encode, ih _ cs hcs,
                      utf8EncodeChar_cp4 b0 _ _ _ (by omega) h4 hg.2.1 hg.2.2.1 hg.2.2.2
                        (fun hx => hlo (Or.inl hx))]
                    show b0 :: rest.getD 0 0 :: rest.getD 1 0 :: rest.getD 2 0 :: rest.drop 3 =
                      b0 :: rest
                    rw [utf8Decode_getD_drop3 rest hg.1]
                · rw [if_neg hg] at h; exact Option.noConfusion h
              · rw [if_neg h4] at h; exact Option.noConfusion h

theorem utf8Encode_of_decode (b cps : List Nat) (h : utf8Decode b = some cps) :
    utf8Encode cps = b :=
  utf8Encode_of_decodeF b.length b cps h

/-! ## Lemmas: field-level round trip -/

theorem beVal_one (x : Nat) : beVal [x] = x := by
  simp [beVal]

theorem pow256 : (256 : Nat) ^ 4 = 4294967296 ∧ (256 : Nat) ^ 8 = 18446744073709551616 ∧
    (256 : Nat) ^ 2 = 65536 := by
  norm_num

theorem padTrunc_self (l : List Nat) : padTrunc l.length l = l := by
  simp [padTrunc, List.take_left]

theorem take_drop_chunk (pre mid post : List Nat) (w : Nat) (hw : mid.length = w) :
    ((pre ++ (mid ++ post)).drop pre.length).take w = mid := by
  rw [List.drop_left, List.take_left' hw]

theorem serializeField_some (f : Fmt) (v : Val) (hwf : wfField f v = true) :
    ∃ bs, serializeField f v = some bs := by
  cases f <;> cases v <;>
    (try (simp only [wfField, Bool.false_eq_true, Bool.and_eq_true, decide_eq_true_eq,
      List.all_eq_true] at hwf))
  case u8.num n => rw [serializeField, if_pos hwf]; exact ⟨_, rfl⟩
  case u32.num n => rw [serializeField, if_pos hwf]; exact ⟨_, rfl⟩
  case u64.num n => rw [serializeField, if_pos hwf]; exact ⟨_, rfl⟩
  case i32.inum i => rw [serializeField, if_pos hwf]; exact ⟨_, rfl⟩
  case f64.dbl l => rw [serializeField, if_pos hwf]; exact ⟨_, rfl⟩
  case utf8.str cps =>
    obtain ⟨h1, h2⟩ := hwf
    have hval : cps.all validScalar = true := by
      simp only [List.all_eq_true]
      intro c hc
      have := h2 c hc
      simp only [validScalar, Bool.or_eq_true, Bool.and_eq_true, decide_eq_true_eq]
      omega
    rw [serializeField, if_pos ⟨hval, by omega⟩]
    exact ⟨_, rfl⟩
  case utf8.null => exact ⟨_, rfl⟩
  case optU8.null => exact ⟨_, rfl⟩
  case dt.dtv d t s off =>
    obtain ⟨⟨⟨⟨h1, h2⟩, h3⟩, h4⟩, h5⟩ := hwf
    subst h1
    rw [serializeField, if_pos ⟨h3, h4, h5⟩]
    exact ⟨_, rfl⟩
  case color.colorv s a r g b =>
    obtain ⟨⟨⟨⟨h1, h2⟩, h3⟩, h4⟩, h5⟩ := hwf
    rw [serializeField, if_pos ⟨h1, h2, h3, h4, h5⟩]
    exact ⟨_, rfl⟩

theorem serializeField_optU8 (v : Val) (hwf : wfField Fmt.optU8 v = true) :
    v = Val.null ∧ serializeField Fmt.optU8 v = some [] := by
  cases v <;> (try (simp only [wfField, Bool.false_eq_true] at hwf))
  exact ⟨rfl, rfl⟩

theorem serializeField_roundtrip (f : Fmt) (v : Val) (bs : List Nat)
    (hwf : wfField f v = true) (hs : serializeField f v = some bs) (hne : f ≠ Fmt.optU8)
    (rest : List Nat) :
    deserializeField f (bs ++ rest) = some (v, bs.length) := by
  have hp := pow256
  cases f <;> cases v <;>
    (try (simp only [wfField, Bool.false_eq_true, Bool.and_eq_true, decide_eq_true_eq,
      List.all_eq_true] at hwf)) <;>
    (try (exact absurd rfl hne))
  case u8.num n =>
    rw [serializeField, if_pos hwf] at hs
    injection hs with hs
    subst hs
    rw [deserializeField]
    simp [beVal_one]
  case u32.num n =>
    rw [serializeField, if_pos hwf] at hs
    injection hs with hs
    subst hs
    have hl : (beBytes 4 n).length = 4 := beBytes_length 4 n
    rw [deserializeField]
    rw [if_pos (by simp [hl])]
    rw [List.take_append_of_le_length (by omega), List.take_of_length_le (by omega),
      beVal_beBytes 4 n (by omega), hl]
  case u64.num n =>
    rw [serializeField, if_pos hwf] at hs
    injection hs with hs
    subst hs
    have hl : (beBytes 8 n).length = 8 := beBytes_length 8 n
    rw [deserializeField]
    rw [if_pos (by simp [hl])]
    rw [List.take_append_of_le_length (by omega), List.take_of_length_le (by omega),
      beVal_beBytes 8 n (by omega), hl]
  case i32.inum i =>
    rw [serializeField, if_pos hwf] at hs
    injection hs with hs
    subst hs
    have hl : (beBytes 4 (i % 4294967296).toNat).length = 4 := beBytes_length 4 _
    rw [deserializeField]
    rw [if_pos (by simp [hl])]
    rw [List.take_append_of_le_length (by omega), List.take_of_length_le (by omega),
      beVal_beBytes 4 _ (by omega), sgn32_emod i hwf.1 hwf.2, hl]
  case f64.dbl l =>
    rw [serializeField, if_pos hwf] at hs
    injection hs with hs
    subst hs
    rw [deserializeField]
    rw [if_pos (by simp; omega)]
    rw [List.take_append_of_le_length (by omega), List.take_of_length_le (by omega), hwf]
  case utf8.null =>
    rw [serializeField] at hs
    injection hs with hs
    subst hs
    rw [deserializeField]
    norm_num [beVal]
  case utf8.str cps =>
    obtain ⟨h1, h2⟩ := hwf
    have hval : cps.all validScalar = true := by
      simp only [List.all_eq_true]
      intro c hc
      have := h2 c hc
      simp only [validScalar, Bool.or_eq_true, Bool.and_eq_true, decide_eq_true_eq]
      omega
    rw [serializeField, if_pos ⟨hval, by omega⟩] at hs
    injection hs with hs
    rw [utf8Encode_ascii cps h2, padTrunc_self] at hs
    subst hs
    have hl : (beBytes 4 cps.length).length = 4 := beBytes_length 4 _
    have hassoc : (beBytes 4 cps.length ++ cps) ++ rest =
        beBytes 4 cps.length ++ (cps ++ rest) := by simp
    rw [deserializeField, hassoc]
    have hlen : (beBytes 4 cps.length ++ (cps ++ rest)).length =
        4 + cps.length + rest.length := by simp [hl]; omega
    rw [if_pos (by omega)]
    rw [List.take_append_of_le_length (by omega), List.take_of_length_le (by omega),
      beVal_beBytes 4 _ (by omega)]
    rw [if_neg (by omega), if_pos (by omega)]
    rw [List.drop_left' hl, List.take_append_of_le_length (by omega),
      List.take_of_length_le (by omega), utf8Decode_ascii cps h2]
    simp [utf8Encode_ascii cps h2, hl]
    try omega
  case dt.dtv d t s off =>
    obtain ⟨⟨⟨⟨h1, h2⟩, h3⟩, h4⟩, h5⟩ := hwf
    subst h1
    rw [serializeField, if_pos ⟨h3, h4, h5⟩] at hs
    injection hs with hs
    subst hs
    have hl8 : (beBytes 8 (d % 18446744073709551616).toNat).length = 8 := beBytes_length 8 _
    have hl4 : (beBytes 4 t).length = 4 := beBytes_length 4 _
    have hassoc : (beBytes 8 (d % 18446744073709551616).toNat ++ beBytes 4 t ++ [s]) ++ rest =
        beBytes 8 (d % 18446744073709551616).toNat ++ (beBytes 4 t ++ ([s] ++ rest)) := by simp
    rw [deserializeField, hassoc]
    have hlen : (beBytes 8 (d % 18446744073709551616).toNat ++
        (beBytes 4 t ++ ([s] ++ rest))).length = 13 + rest.length := by
      simp [hl8, hl4]
      omega
    rw [if_pos (by omega)]
    have hc12 : (beBytes 8 (d % 18446744073709551616).toNat ++
        (beBytes 4 t ++ ([s] ++ rest))).drop 12 = [s] ++ rest := by
      have h12 : (12 : Nat) = (beBytes 8 (d % 18446744073709551616).toNat).length + 4 := by
        rw [hl8]
      rw [h12, List.drop_append, List.drop_left' hl4]
    rw [hc12]
    have hs1 : (([s] ++ rest).take 1) = [s] := List.take_append_of_le_length (by simp)
    rw [hs1, beVal_one, if_neg h2]
    rw [List.take_append_of_le_length (by omega), List.take_of_length_le (by omega),
      beVal_beBytes 8 _ (by omega), sgn64_emod d h3.1 h3.2]
    have hc8 : (beBytes 8 (d % 18446744073709551616).toNat ++
        (beBytes 4 t ++ ([s] ++ rest))).drop 8 = beBytes 4 t ++ ([s] ++ rest) := by
      rw [List.drop_left' hl8]
    rw [hc8, List.take_append_of_le_length (by omega), List.take_of_length_le (by omega),
      beVal_beBytes 4 _ (by omega)]
    simp [hl8, hl4]
    try omega
  case color.colorv s a r g b =>
    obtain ⟨⟨⟨⟨h1, h2⟩, h3⟩, h4⟩, h5⟩ := hwf
    rw [serializeField, if_pos ⟨h1, h2, h3, h4, h5⟩] at hs
    injection hs with hs
    subst hs
    have hl2a : (beBytes 2 a).length = 2 := beBytes_length 2 _
    have hl2r : (beBytes 2 r).length = 2 := beBytes_length 2 _
    have hl2g : (beBytes 2 g).length = 2 := beBytes_length 2 _
    have hl2b : (beBytes 2 b).length = 2 := beBytes_length 2 _
    have hl2z : (beBytes 2 0).length = 2 := beBytes_length 2 _
    have hassoc : ([s] ++ beBytes 2 a ++ beBytes 2 r ++ beBytes 2 g ++ beBytes 2 b ++
        beBytes 2 0) ++ rest = [s] ++ (beBytes 2 a ++ (beBytes 2 r ++ (beBytes 2 g ++
        (beBytes 2 b ++ (beBytes 2 0 ++ rest))))) := by simp
    rw [deserializeField, hassoc]
    have hlen : ([s] ++ (beBytes 2 a ++ (beBytes 2 r ++ (beBytes 2 g ++
        (beBytes 2 b ++ (beBytes 2 0 ++ rest)))))).length = 11 + rest.length := by
      simp [hl2a, hl2r, hl2g, hl2b, hl2z]
      omega
    rw [if_pos (by omega)]
    have e0 : (([s] ++ (beBytes 2 a ++ (beBytes 2 r ++ (beBytes 2 g ++
        (beBytes 2 b ++ (beBytes 2 0 ++ rest)))))).take 1) = [s] :=
      List.take_append_of_le_length (by simp)
    have d1 : (([s] ++ (beBytes 2 a ++ (beBytes 2 r ++ (beBytes 2 g ++
        (beBytes 2 b ++ (beBytes 2 0 ++ rest)))))).drop 1) =
        beBytes 2 a ++ (beBytes 2 r ++ (beBytes 2 g ++ (beBytes 2 b ++ (beBytes 2 0 ++ rest)))) := by
      rw [List.drop_left' (by simp)]
    have d3 : (([s] ++ (beBytes 2 a ++ (beBytes 2 r ++ (beBytes 2 g ++
        (beBytes 2 b ++ (beBytes 2 0 ++ rest)))))).drop 3) =
        beBytes 2 r ++ (beBytes 2 g ++ (beBytes 2 b ++ (beBytes 2 0 ++ rest))) := by
      have h13 : (3 : Nat) = ([s] : List Nat).length + 2 := by simp
      rw [h13, List.drop_append, List.drop_left' hl2a]
    have d5 : (([s] ++ (beBytes 2 a ++ (beBytes 2 r ++ (beBytes 2 g ++
        (beBytes 2 b ++ (beBytes 2 0 ++ rest)))))).drop 5) =
        beBytes 2 g ++ (beBytes 2 b ++ (beBytes 2 0 ++ rest)) := by
      have h15 : (5 : Nat) = ([s] : List Nat).length + 4 := by simp
      rw [h15, List.drop_append]
      have h24 : (4 : Nat) = (beBytes 2 a).length + 2 := by rw [hl2a]
      rw [h24, List.drop_append, List.drop_left' hl2r]
    have d7 : (([s] ++ (beBytes 2 a ++ (beBytes 2 r ++ (beBytes 2 g ++
        (beBytes 2 b ++ (beBytes 2 0 ++ rest)))))).drop 7) =
        beBytes 2 b ++ (beBytes 2 0 ++ rest) := by
      have h17 : (7 : Nat) = ([s] : List Nat).length + 6 := by simp
      rw [h17, List.drop_append]
      have h26 : (6 : Nat) = (beBytes 2 a).length + 4 := by rw [hl2a]
      rw [h26, List.drop_append]
      have h24 : (4 : Nat) = (beBytes 2 r).length + 2 := by rw [hl2r]
      rw [h24, List.drop_append, List.drop_left' hl2g]
    rw [e0, beVal_one, d1, d3, d5, d7]
    rw [List.take_append_of_le_length (by omega), List.take_of_length_le (by omega),
      beVal_beBytes 2 a (by omega)]
    rw [List.take_append_of_le_length (by omega), List.take_of_length_le (by omega),
      beVal_beBytes 2 r (by omega)]
    rw [List.take_append_of_le_length (by omega), List.take_of_length_le (by omega),
      beVal_beBytes 2 g (by omega)]
    rw [List.take_append_of_le_length (by omega), List.take_of_length_le (by omega),
      beVal_beBytes 2 b (by omega)]
    simp [hl2a, hl2r, hl2g, hl2b, hl2z]
    try omega

/-! ## Lemmas: decode consumes only a prefix -/

theorem take_take_of_le {α : Type} (b : List α) (w m : Nat) (h : w ≤ m) :
    (b.take m).take w = b.take w := by
  rw [List.take_take, Nat.min_eq_left h]

theorem drop_take_take {α : Type} (b : List α) (off w m : Nat) (h : off + w ≤ m) :
    ((b.take m).drop off).take w = (b.drop off).take w := by
  rw [List.drop_take, List.take_take, Nat.min_eq_left (by omega)]

theorem length_take_ge {α : Type} (b : List α) (w m : Nat) (hw : w ≤ m) (hb : w ≤ b.length) :
    w ≤ (b.take m).length := by
  simp
  omega

theorem some_pair_inj {v v' : Val} {n n' : Nat}
    (h : (some (v, n) : Option (Val × Nat)) = some (v', n')) : v = v' ∧ n = n' := by
  simp only [Option.some.injEq, Prod.mk.injEq] at h
  exact h

theorem deserializeField_consumed (f : Fmt) (b : List Nat) (v : Val) (n : Nat)
    (h : deserializeField f b = some (v, n)) :
    1 ≤ n ∧ n ≤ b.length ∧ ∀ m, n ≤ m → deserializeField f (b.take m) = some (v, n) := by
  cases f <;> rw [deserializeField] at h
  case u8 =>
    by_cases hb : 1 ≤ b.length
    · rw [if_pos hb] at h
      obtain ⟨rfl, rfl⟩ := some_pair_inj h
      refine ⟨le_refl _, hb, fun m hm => ?_⟩
      rw [deserializeField, if_pos (length_take_ge b 1 m hm hb), take_take_of_le b 1 m hm]
    · rw [if_neg hb] at h; exact Option.noConfusion h
  case u32 =>
    by_cases hb : 4 ≤ b.length
    · rw [if_pos hb] at h
      obtain ⟨rfl, rfl⟩ := some_pair_inj h
      refine ⟨by omega, hb, fun m hm => ?_⟩
      rw [deserializeField, if_pos (length_take_ge b 4 m hm hb), take_take_of_le b 4 m hm]
    · rw [if_neg hb] at h; exact Option.noConfusion h
  case u64 =>
    by_cases hb : 8 ≤ b.length
    · rw [if_pos hb] at h
      obtain ⟨rfl, rfl⟩ := some_pair_inj h
      refine ⟨by omega, hb, fun m hm => ?_⟩
      rw [deserializeField, if_pos (length_take_ge b 8 m hm hb), take_take_of_le b 8 m hm]
    · rw [if_neg hb] at h; exact Option.noConfusion h
  case i32 =>
    by_cases hb : 4 ≤ b.length
    · rw [if_pos hb] at h
      obtain ⟨rfl, rfl⟩ := some_pair_inj h
      refine ⟨by omega, hb, fun m hm => ?_⟩
      rw [deserializeField, if_pos (length_take_ge b 4 m hm hb), take_take_of_le b 4 m hm]
    · rw [if_neg hb] at h; exact Option.noConfusion h
  case f64 =>
    by_cases hb : 8 ≤ b.length
    · rw [if_pos hb] at h
      obtain ⟨rfl, rfl⟩ := some_pair_inj h
      refine ⟨by omega, hb, fun m hm => ?_⟩
      rw [deserializeField, if_pos (length_take_ge b 8 m hm hb), take_take_of_le b 8 m hm]
    · rw [if_neg hb] at h; exact Option.noConfusion h
  case utf8 =>
    by_cases hb : 4 ≤ b.length
    · rw [if_pos hb] at h
      by_cases hff : beVal (b.take 4) = 4294967295
      · rw [if_pos hff] at h
        obtain ⟨rfl, rfl⟩ := some_pair_inj h
        refine ⟨by omega, hb, fun m hm => ?_⟩
        rw [deserializeField, if_pos (length_take_ge b 4 m hm hb), take_take_of_le b 4 m hm,
          if_pos hff]
      · rw [if_neg hff] at h
        by_cases hln : 4 + beVal (b.take 4) ≤ b.length
        · rw [if_pos hln] at h
          cases hdec : utf8Decode ((b.drop 4).take (beVal (b.take 4))) with
          | none => rw [hdec] at h; exact Option.noConfusion h
          | some cps =>
            rw [hdec] at h
            obtain ⟨rfl, rfl⟩ := some_pair_inj h
            have henc : utf8Encode cps = (b.drop 4).take (beVal (b.take 4)) :=
              utf8Encode_of_decode _ cps hdec
            have hlen : (utf8Encode cps).length = beVal (b.take 4) := by
              rw [henc]
              simp
              omega
            refine ⟨by omega, by omega, fun m hm => ?_⟩
            rw [deserializeField, if_pos (length_take_ge b 4 m (by omega) hb),
              take_take_of_le b 4 m (by omega), if_neg hff]
            rw [if_pos (by simp; omega)]
            rw [drop_take_take b 4 (beVal (b.take 4)) m (by omega), hdec]
        · rw [if_neg hln] at h; exact Option.noConfusion h
    · rw [if_neg hb] at h; exact Option.noConfusion h
  case optU8 =>
    by_cases hb : b.length = 1
    · rw [if_pos hb] at h
      obtain ⟨rfl, rfl⟩ := some_pair_inj h
      refine ⟨le_refl _, by omega, fun m hm => ?_⟩
      rw [List.take_of_length_le (by omega), deserializeField, if_pos hb]
    · rw [if_neg hb] at h; exact Option.noConfusion h
  case dt =>
    by_cases hb : 13 ≤ b.length
    · rw [if_pos hb] at h
      by_cases hs2 : beVal ((b.drop 12).take 1) = 2
      · rw [if_pos hs2] at h; exact Option.noConfusion h
      · rw [if_neg hs2] at h
        obtain ⟨rfl, rfl⟩ := some_pair_inj h
        refine ⟨by omega, hb, fun m hm => ?_⟩
        rw [deserializeField, if_pos (length_take_ge b 13 m hm hb),
          drop_take_take b 12 1 m (by omega), if_neg hs2, take_take_of_le b 8 m (by omega),
          drop_take_take b 8 4 m (by omega)]
    · rw [if_neg hb] at h; exact Option.noConfusion h
  case color =>
    by_cases hb : 11 ≤ b.length
    · rw [if_pos hb] at h
      obtain ⟨rfl, rfl⟩ := some_pair_inj h
      refine ⟨by omega, hb, fun m hm => ?_⟩
      rw [deserializeField, if_pos (length_take_ge b 11 m hm hb),
        take_take_of_le b 1 m (by omega), drop_take_take b 1 2 m (by omega),
        drop_take_take b 3 2 m (by omega), drop_take_take b 5 2 m (by omega),
        drop_take_take b 7 2 m (by omega)]
    · rw [if_neg hb] at h; exact Option.noConfusion h

/-! ## Lemmas: field lists -/

theorem serializeFields_cons_inv (f : Fmt) (fs : List Fmt) (v : Val) (vs : List Val)
    (bs : List Nat) (h : serializeFields (f :: fs) (v :: vs) = some bs) :
    ∃ b1 bs2, serializeField f v = some b1 ∧ serializeFields fs vs = some bs2 ∧
      bs = b1 ++ bs2 := by
  rw [serializeFields] at h
  cases h1 : serializeField f v with
  | none => rw [h1] at h; exact Option.noConfusion h
  | some b1 =>
    cases h2 : serializeFields fs vs with
    | none => rw [h1, h2] at h; exact Option.noConfusion h
    | some bs2 =>
      rw [h1, h2] at h
      injection h with h
      exact ⟨b1, bs2, rfl, rfl, h.symm⟩

theorem wfFields_cons_inv (f : Fmt) (fs : List Fmt) (vals : List Val)
    (h : wfFields (f :: fs) vals = true) :
    ∃ v vs, vals = v :: vs ∧ wfField f v = true ∧
      (f = Fmt.optU8 → fs = []) ∧ wfFields fs vs = true := by
  cases vals with
  | nil => rw [wfFields] at h; exact Bool.noConfusion h
  | cons v vs =>
    rw [wfFields] at h
    simp only [Bool.and_eq_true, Bool.or_eq_true, decide_eq_true_eq] at h
    exact ⟨v, vs, rfl, h.1.1, fun hf => h.1.2.elim (fun hx => absurd hf hx) id, h.2⟩

theorem wfFields_nil_inv (vals : List Val) (h : wfFields [] vals = true) : vals = [] := by
  cases vals with
  | nil => rfl
  | cons v vs => rw [wfFields] at h; exact Bool.noConfusion h

theorem deserializeFieldsC_nil_buffer (l : List Fmt) :
    deserializeFieldsC l [] = some (List.replicate l.length (Val.null, 0)) := by
  induction l with
  | nil => rfl
  | cons f fs ih => rw [deserializeFieldsC, if_pos rfl, ih]; rfl

theorem serializeFields_decodeC (l : List Fmt) :
    ∀ (vals : List Val) (bs : List Nat), wfFields l vals = true →
      serializeFields l vals = some bs → ∀ rest, (rest ≠ [] → Fmt.optU8 ∉ l) →
      ∃ out, deserializeFieldsC l (bs ++ rest) = some out ∧ out.map Prod.fst = vals := by
  induction l with
  | nil =>
    intro vals bs hwf hs rest _
    rw [wfFields_nil_inv vals hwf] at hs
    rw [serializeFields] at hs
    injection hs with hs
    subst hs
    exact ⟨[], rfl, (wfFields_nil_inv vals hwf).symm⟩
  | cons f fs ih =>
    intro vals bs hwf hs rest hrest
    obtain ⟨v, vs, rfl, hw1, hw2, hw3⟩ := wfFields_cons_inv f fs _ hwf
    obtain ⟨b1, bs2, hb1, hbs2, rfl⟩ := serializeFields_cons_inv f fs v vs bs hs
    by_cases hf : f = Fmt.optU8
    · subst hf
      have hfs : fs = [] := hw2 rfl
      subst hfs
      obtain ⟨rfl, hser⟩ := serializeField_optU8 v hw1
      rw [hser] at hb1
      injection hb1 with hb1
      subst hb1
      rw [wfFields_nil_inv vs hw3] at hbs2 ⊢
      rw [serializeFields] at hbs2
      injection hbs2 with hbs2
      subst hbs2
      have hr : rest = [] := by
        by_cases hr' : rest = []
        · exact hr'
        · exact absurd (List.mem_singleton_self _) (hrest hr')
      subst hr
      exact ⟨[(Val.null, 0)], by rw [deserializeFieldsC]; rfl, rfl⟩
    · have hrt := serializeField_roundtrip f v b1 hw1 hb1 hf (bs2 ++ rest)
      have hcons := deserializeField_consumed f _ _ _ hrt
      have h1le := hcons.1
      have hb1ne : b1 ++ (bs2 ++ rest) ≠ [] := by
        intro hx
        have h0 : b1.length + (bs2 ++ rest).length = 0 := by
          have := congrArg List.length hx
          simpa using this
        omega
      obtain ⟨out2, hout2, hmap2⟩ := ih vs bs2 hw3 hbs2 rest
        (fun hr => fun hmem => hrest hr (List.mem_cons_of_mem f hmem))
      refine ⟨(v, b1.length) :: out2, ?_, by simp [hmap2]⟩
      rw [List.append_assoc, deserializeFieldsC, if_neg hb1ne, hrt]
      simp [List.drop_left, hout2]

theorem serializeFields_someL (l : List Fmt) :
    ∀ vals, wfFields l vals = true → ∃ bs, serializeFields l vals = some bs := by
  induction l with
  | nil =>
    intro vals hwf
    rw [wfFields_nil_inv vals hwf]
    exact ⟨[], rfl⟩
  | cons f fs ih =>
    intro vals hwf
    obtain ⟨v, vs, rfl, hw1, _, hw3⟩ := wfFields_cons_inv f fs vals hwf
    obtain ⟨b1, hb1⟩ := serializeField_some f v hw1
    obtain ⟨bs2, hbs2⟩ := ih vs hw3
    exact ⟨b1 ++ bs2, by rw [serializeFields, hb1, hbs2]⟩

theorem headerOK_inv (tag : Nat) (vals : List Val) (h : headerOK tag vals = true) :
    ∃ vn rest, vals = Val.num MAGIC :: Val.num vn :: Val.num tag :: rest ∧ vn ≤ 3 := by
  cases vals with
  | nil => exact Bool.noConfusion h
  | cons v0 t0 =>
    cases t0 with
    | nil => cases v0 <;> exact Bool.noConfusion h
    | cons v1 t1 =>
      cases t1 with
      | nil => cases v0 <;> cases v1 <;> exact Bool.noConfusion h
      | cons v2 t2 =>
        cases v0 <;> cases v1 <;> cases v2 <;> (try (exact Bool.noConfusion h))
        case num.num.num m vn t =>
          replace h : (decide (m = MAGIC) && decide (vn ≤ 3) && decide (t = tag)) = true := h
          simp only [Bool.and_eq_true, decide_eq_true_eq] at h
          obtain ⟨⟨h1, h2⟩, h3⟩ := h
          subst h1
          subst h3
          exact ⟨vn, t2, rfl, h2⟩

theorem layoutOf_inv (tag : Nat) (l : List Fmt) (h : layoutOf tag = some l) :
    ∃ vf, variantFmts tag = some vf ∧ l = headerFmt ++ vf := by
  rw [layoutOf] at h
  rcases Option.map_eq_some'.mp h with ⟨vf, hvf, hl⟩
  exact ⟨vf, hvf, hl.symm⟩

theorem wfFields_length (l : List Fmt) :
    ∀ vals, wfFields l vals = true → vals.length = l.length := by
  induction l with
  | nil => intro vals h; rw [wfFields_nil_inv vals h]; rfl
  | cons f fs ih =>
    intro vals h
    obtain ⟨v, vs, rfl, _, _, h3⟩ := wfFields_cons_inv f fs vals h
    simp [ih vs h3]

theorem deserializeFieldsC_length (l : List Fmt) :
    ∀ b out, deserializeFieldsC l b = some out → out.length = l.length := by
  induction l with
  | nil =>
    intro b out h
    rw [deserializeFieldsC] at h
    injection h with h
    subst h
    rfl
  | cons f fs ih =>
    intro b out h
    rw [deserializeFieldsC] at h
    by_cases hb : b = []
    · rw [if_pos hb] at h
      rcases Option.map_eq_some'.mp h with ⟨out2, hout2, rfl⟩
      simp [ih [] out2 hout2]
    · rw [if_neg hb] at h
      cases hd : deserializeField f b with
      | none => rw [hd] at h; exact Option.noConfusion h
      | some p =>
        rw [hd] at h
        simp only [Option.some_bind] at h
        rcases Option.map_eq_some'.mp h with ⟨out2, hout2, rfl⟩
        simp [ih _ out2 hout2]

theorem deserializeFieldsC_append_left (l1 l2 : List Fmt) :
    ∀ b out, deserializeFieldsC (l1 ++ l2) b = some out →
      deserializeFieldsC l1 b = some (out.take l1.length) := by
  induction l1 with
  | nil =>
    intro b out h
    simp [deserializeFieldsC]
  | cons f fs ih =>
    intro b out h
    rw [List.cons_append, deserializeFieldsC] at h
    rw [deserializeFieldsC]
    by_cases hb : b = []
    · rw [if_pos hb] at h ⊢
      rcases Option.map_eq_some'.mp h with ⟨out2, hout2, rfl⟩
      rw [ih [] out2 hout2]
      simp
    · rw [if_neg hb] at h ⊢
      cases hd : deserializeField f b with
      | none => rw [hd] at h; exact Option.noConfusion h
      | some p =>
        rw [hd] at h
        simp only [Option.some_bind] at h ⊢
        rcases Option.map_eq_some'.mp h with ⟨out2, hout2, rfl⟩
        rw [ih _ out2 hout2]
        simp

theorem telegram_roundtrip (tag : Nat) (l : List Fmt) (vals : List Val)
    (hlay : layoutOf tag = some l) (hwf : wfFields l vals = true)
    (hhdr : headerOK tag vals = true) :
    ∃ bs, asBytes tag vals = some bs ∧ fromBytes bs = some ⟨some tag, vals⟩ := by
  obtain ⟨vf, hvf, rfl⟩ := layoutOf_inv tag l hlay
  obtain ⟨bs, hs⟩ := serializeFields_someL _ vals hwf
  obtain ⟨vn, hrest, heq, hvn⟩ := headerOK_inv tag vals hhdr
  refine ⟨bs, by rw [asBytes, hlay]; exact hs, ?_⟩
  obtain ⟨out, hout, hmap⟩ := serializeFields_decodeC (headerFmt ++ vf) vals bs hwf hs []
    (fun hne => absurd rfl hne)
  rw [List.append_nil] at hout
  have hfull : deserializeFields (headerFmt ++ vf) bs = some vals := by
    rw [deserializeFields, hout]
    simp [hmap]
  have hlenv : vals.length = (headerFmt ++ vf).length := wfFields_length _ vals hwf
  have hlen4 : 4 ≤ vals.length := by
    rw [hlenv]
    simp [headerFmt]
  obtain ⟨v3, vs3, hrest_eq⟩ : ∃ v3 vs3, hrest = v3 :: vs3 := by
    cases hrest with
    | nil =>
      rw [heq] at hlen4
      simp at hlen4
    | cons v3 vs3 => exact ⟨v3, vs3, rfl⟩
  subst hrest_eq
  have hhdrdec : deserializeFields headerFmt bs =
      some [Val.num MAGIC, Val.num vn, Val.num tag, v3] := by
    have hleft := deserializeFieldsC_append_left headerFmt vf bs out hout
    rw [deserializeFields, hleft]
    have : (out.take (headerFmt.length)).map Prod.fst = vals.take (headerFmt.length) := by
      rw [List.map_take, hmap]
    rw [Option.map_some']
    rw [this, heq]
    rfl
  rw [fromBytes, hhdrdec]
  simp only [if_pos rfl, hvn, if_pos, hlay]
  rw [hfull]
  rfl

/-! ## Lemmas: truncation of a telegram buffer -/

theorem consumedOf_cons (v : Val) (n : Nat) (l : List (Val × Nat)) :
    consumedOf ((v, n) :: l) = n + consumedOf l := by
  simp [consumedOf]

theorem take_ne_nil {α : Type} (b : List α) (m : Nat) (hb : b ≠ []) (hm : 1 ≤ m) :
    b.take m ≠ [] := by
  cases b with
  | nil => exact absurd rfl hb
  | cons x xs =>
    cases m with
    | zero => omega
    | succ m => simp

theorem deserializeFieldsC_take (l : List Fmt) :
    ∀ b out k, deserializeFieldsC l b = some out → k ≤ l.length →
      deserializeFieldsC l (b.take (consumedOf (out.take k))) =
        some (out.take k ++ List.replicate (l.length - k) (Val.null, 0)) := by
  induction l with
  | nil =>
    intro b out k h hk
    rw [deserializeFieldsC] at h
    injection h with h
    subst h
    simp only [List.length_nil, Nat.le_zero] at hk
    subst hk
    rfl
  | cons f fs ih =>
    intro b out k h hk
    rw [deserializeFieldsC] at h
    cases k with
    | zero =>
      simp only [List.take_zero, consumedOf, List.map_nil, List.sum_nil]
      rw [deserializeFieldsC_nil_buffer]
      simp
    | succ k =>
      by_cases hb : b = []
      · rw [if_pos hb] at h
        rcases Option.map_eq_some'.mp h with ⟨out2, hout2, rfl⟩
        have hout2e : out2 = List.replicate fs.length (Val.null, 0) := by
          rw [deserializeFieldsC_nil_buffer] at hout2
          injection hout2 with hout2
          exact hout2.symm
        subst hout2e
        subst hb
        simp only [List.take_nil]
        rw [deserializeFieldsC_nil_buffer]
        simp only [List.length_cons, Option.some.injEq]
        rw [List.take_succ_cons, List.take_replicate]
        simp only [List.length_cons] at hk
        have hmin : k ⊓ fs.length = k := by omega
        rw [hmin, List.replicate_succ]
        congr 1
        rw [List.append_eq, ← List.replicate_add]
        congr 1
        omega
      · rw [if_neg hb] at h
        cases hd : deserializeField f b with
        | none => rw [hd] at h; exact Option.noConfusion h
        | some p =>
          rcases p with ⟨v, n⟩
          rw [hd] at h
          simp only [Option.some_bind] at h
          rcases Option.map_eq_some'.mp h with ⟨out2, hout2, rfl⟩
          have hcons := deserializeField_consumed f b v n hd
          rw [List.take_succ_cons, consumedOf_cons]
          have hne : b.take (n + consumedOf (out2.take k)) ≠ [] :=
            take_ne_nil b _ hb (by omega)
          rw [deserializeFieldsC, if_neg hne]
          rw [hcons.2.2 (n + consumedOf (out2.take k)) (by omega)]
          simp only [Option.some_bind]
          rw [List.drop_take]
          have harith : n + consumedOf (out2.take k) - n = consumedOf (out2.take k) := by omega
          rw [harith]
          rw [ih (b.drop n) out2 k hout2 (by simpa using hk)]
          simp

theorem telegram_truncation (tag : Nat) (l : List Fmt) (buf : List Nat)
    (out : List (Val × Nat)) (vn : Nat) (restVals : List Val) (k : Nat)
    (hlay : layoutOf tag = some l)
    (hout : deserializeFieldsC l buf = some out)
    (hhdr : out.map Prod.fst = Val.num MAGIC :: Val.num vn :: Val.num tag :: restVals)
    (hvn : vn ≤ 3) (hk3 : 3 ≤ k) (hkl : k ≤ l.length) :
    fromBytes buf = some ⟨some tag, out.map Prod.fst⟩ ∧
    fromBytes (buf.take (consumedOf (out.take k))) =
      some ⟨some tag, (out.map Prod.fst).take k ++ List.replicate (l.length - k) Val.null⟩ := by
  obtain ⟨vf, hvf, rfl⟩ := layoutOf_inv tag l hlay
  have hlen : out.length = (headerFmt ++ vf).length := deserializeFieldsC_length _ buf out hout
  have hlen4 : 4 ≤ out.length := by
    rw [hlen]
    simp [headerFmt]
  have hfmtlen : headerFmt.length = 4 := rfl
  cases out with
  | nil => simp at hhdr
  | cons o0 t0 =>
  cases t0 with
  | nil => simp at hhdr
  | cons o1 t1 =>
  cases t1 with
  | nil => simp at hhdr
  | cons o2 t2 =>
  cases t2 with
  | nil => simp at hlen4
  | cons o3 orest =>
  rcases o0 with ⟨v0, n0⟩
  rcases o1 with ⟨v1, n1⟩
  rcases o2 with ⟨v2, n2⟩
  rcases o3 with ⟨v3, n3⟩
  simp only [List.map_cons] at hhdr
  injection hhdr with e0 hhdr
  injection hhdr with e1 hhdr
  injection hhdr with e2 hhdr
  subst e0
  subst e1
  subst e2
  constructor
  · -- the untruncated decode
    have hH := deserializeFieldsC_append_left headerFmt vf buf _ hout
    rw [hfmtlen] at hH
    have hHdec : deserializeFields headerFmt buf =
        some [Val.num MAGIC, Val.num vn, Val.num tag, v3] := by
      rw [deserializeFields, hH]
      rfl
    rw [fromBytes, hHdec]
    simp only [if_pos rfl, hvn, if_pos, hlay]
    rw [deserializeFields, hout]
    rfl
  · -- the truncated decode
    have htake := deserializeFieldsC_take (headerFmt ++ vf) buf _ k hout hkl
    have hH2 := deserializeFieldsC_append_left headerFmt vf _ _ htake
    rw [hfmtlen] at hH2
    by_cases hk4 : 4 ≤ k
    · -- the id field is inside the kept prefix
      have htk4 : ((((Val.num MAGIC, n0) :: (Val.num vn, n1) :: (Val.num tag, n2) ::
          (v3, n3) :: orest).take k ++
          List.replicate ((headerFmt ++ vf).length - k) (Val.null, 0)).take 4) =
          [(Val.num MAGIC, n0), (Val.num vn, n1), (Val.num tag, n2), (v3, n3)] := by
        rw [List.take_append_of_le_length]
        · rw [take_take_of_le _ 4 k hk4]
          match k, hk4 with
          | (m + 4), _ => rfl
        · simp only [List.length_take]
          simp only [List.length_cons] at hlen ⊢
          omega
      have hH2dec : deserializeFields headerFmt
          (buf.take (consumedOf ((((Val.num MAGIC, n0) :: (Val.num vn, n1) ::
            (Val.num tag, n2) :: (v3, n3) :: orest)).take k))) =
          some [Val.num MAGIC, Val.num vn, Val.num tag, v3] := by
        rw [deserializeFields, hH2, htk4]
        rfl
      rw [fromBytes, hH2dec]
      simp only [if_pos rfl, hvn, if_pos, hlay]
      rw [deserializeFields, htake]
      simp
    · -- k = 3: the id field is already truncated away
      have hk3e : k = 3 := by omega
      subst hk3e
      have hvflen : 1 ≤ (headerFmt ++ vf).length - 3 := by
        simp only [List.length_cons] at hlen
        omega
      have htk4 : ((((Val.num MAGIC, n0) :: (Val.num vn, n1) :: (Val.num tag, n2) ::
          (v3, n3) :: orest).take 3 ++
          List.replicate ((headerFmt ++ vf).length - 3) (Val.null, 0)).take 4) =
          [(Val.num MAGIC, n0), (Val.num vn, n1), (Val.num tag, n2), (Val.null, 0)] := by
        have h34 : (4 : Nat) = (((Val.num MAGIC, n0) :: (Val.num vn, n1) ::
            (Val.num tag, n2) :: (v3, n3) :: orest).take 3).length + 1 := by rfl
        rw [h34, List.take_append]
        rw [List.take_replicate]
        have hmin : 1 ⊓ ((headerFmt ++ vf).length - 3) = 1 := by omega
        rw [hmin]
        rfl
      have hH2dec : deserializeFields headerFmt
          (buf.take (consumedOf ((((Val.num MAGIC, n0) :: (Val.num vn, n1) ::
            (Val.num tag, n2) :: (v3, n3) :: orest)).take 3))) =
          some [Val.num MAGIC, Val.num vn, Val.num tag, Val.null] := by
        rw [deserializeFields, hH2, htk4]
        rfl
      rw [fromBytes, hH2dec]
      simp only [if_pos rfl, hvn, if_pos, hlay]
      rw [deserializeFields, htake]
      simp

/-! ## Claim C1: encode/decode round trip -/

/-- C1 (amended): for every known telegram type tag with layout l and
every value list with well-formed field values - integers within their
declared widths, strings null or made only of code points below 128,
optional integers null, date-times offset-free with a non-timezone
timespec, and the header carrying the magic, a version at most 3 and
the type tag - encoding succeeds and decoding the resulting bytes
returns exactly the encoded record.  The ASCII restriction on strings
is forced by the length-prefix slip that claim C8 records; without it
the round trip fails (see the counterexample). -/
theorem c1_roundtrip_wellformed (tag : Nat) (l : List Fmt) (vals : List Val)
    (hlay : layoutOf tag = some l) (hwf : wfFields l vals = true)
    (hhdr : headerOK tag vals = true) :
    ∃ bs, asBytes tag vals = some bs ∧ fromBytes bs = some ⟨some tag, vals⟩ :=
  telegram_roundtrip tag l vals hlay hwf hhdr

/-- C1 witness: the round trip on a concrete Clear telegram whose id
string is WS and whose optional window byte is null. -/
theorem c1_roundtrip_wellformed_witness :
    ∃ bs, asBytes 3 [Val.num MAGIC, Val.num 3, Val.num 3, Val.str [87, 83], Val.null] =
        some bs ∧
      fromBytes bs =
        some ⟨some 3, [Val.num MAGIC, Val.num 3, Val.num 3, Val.str [87, 83], Val.null]⟩ :=
  c1_roundtrip_wellformed 3 (headerFmt ++ [Fmt.optU8])
    [Val.num MAGIC, Val.num 3, Val.num 3, Val.str [87, 83], Val.null]
    (by rfl) (by decide) (by decide)

/-- C1 counterexample: a Location telegram whose location string is
the single code point 233 (a well-formed Python string) encodes
successfully, but decoding the produced bytes fails, because the
encoder wrote the character count 1 as the length and truncated the
two UTF-8 bytes to one, so decode(encode(t)) is not t. -/
theorem c1_roundtrip_counterexample :
    (asBytes 11 [Val.num MAGIC, Val.num 3, Val.num 11, Val.str [65], Val.str [233]]).isSome =
      true ∧
    ((asBytes 11 [Val.num MAGIC, Val.num 3, Val.num 11, Val.str [65],
      Val.str [233]]).bind fromBytes) = none := by
  decide

/-! ## Claim C5: truncation tolerance -/

/-- C5 (amended): take any byte buffer that a registered layout decodes
with trace out, whose decoded header carries the magic, a version at
most 3 and the registered tag.  Cutting the buffer at the field
boundary after field k, for any k from 3 (magic, version and type kept)
up to the field count, decodes without error to a record whose first k
fields equal the un-truncated decode and whose remaining fields are all
null.  (Cutting inside the first three header fields is an error - see
the counterexample - which forces the bound 3 on k.) -/
theorem c5_truncation_tolerance (tag : Nat) (l : List Fmt) (buf : List Nat)
    (out : List (Val × Nat)) (vn : Nat) (restVals : List Val) (k : Nat)
    (hlay : layoutOf tag = some l)
    (hout : deserializeFieldsC l buf = some out)
    (hhdr : out.map Prod.fst = Val.num MAGIC :: Val.num vn :: Val.num tag :: restVals)
    (hvn : vn ≤ 3) (hk3 : 3 ≤ k) (hkl : k ≤ l.length) :
    fromBytes buf = some ⟨some tag, out.map Prod.fst⟩ ∧
    fromBytes (buf.take (consumedOf (out.take k))) =
      some ⟨some tag, (out.map Prod.fst).take k ++ List.replicate (l.length - k) Val.null⟩ :=
  telegram_truncation tag l buf out vn restVals k hlay hout hhdr hvn hk3 hkl

/-- C5 witness: a concrete Close telegram buffer truncated after its
third field (k = 3) decodes to the same magic, version and type with a
null id and no error. -/
theorem c5_truncation_tolerance_witness :
    fromBytes [173, 188, 203, 218, 0, 0, 0, 3, 0, 0, 0, 6, 255, 255, 255, 255] =
      some ⟨some 6, ([(Val.num MAGIC, 4), (Val.num 3, 4), (Val.num 6, 4),
        (Val.null, 4)].map Prod.fst)⟩ ∧
    fromBytes ([173, 188, 203, 218, 0, 0, 0, 3, 0, 0, 0, 6, 255, 255, 255, 255].take
        (consumedOf ([(Val.num MAGIC, 4), (Val.num 3, 4), (Val.num 6, 4),
          (Val.null, 4)].take 3))) =
      some ⟨some 6, (([(Val.num MAGIC, 4), (Val.num 3, 4), (Val.num 6, 4),
        (Val.null, 4)].map Prod.fst).take 3 ++
        List.replicate ((headerFmt ++ []).length - 3) Val.null)⟩ :=
  c5_truncation_tolerance 6 (headerFmt ++ [])
    [173, 188, 203, 218, 0, 0, 0, 3, 0, 0, 0, 6, 255, 255, 255, 255]
    [(Val.num MAGIC, 4), (Val.num 3, 4), (Val.num 6, 4), (Val.null, 4)]
    3 [Val.null] 3 (by rfl) (by decide) (by decide) (by decide) (by decide) (by decide)

/-- C5 counterexample: the same Close telegram buffer decodes, but the
buffer shortened at the boundary after field 1 (only the magic kept)
raises a decode error (the version assertion meets None), contradicting
the claim that truncation at any field boundary is never an error. -/
theorem c5_truncation_counterexample :
    fromBytes [173, 188, 203, 218, 0, 0, 0, 3, 0, 0, 0, 6, 255, 255, 255, 255] =
      some ⟨some 6, [Val.num MAGIC, Val.num 3, Val.num 6, Val.null]⟩ ∧
    fromBytes ([173, 188, 203, 218, 0, 0, 0, 3, 0, 0, 0, 6, 255, 255, 255, 255].take 4) =
      none := by
  decide

/-! ## Claim C6: the timezone-aware date-time decode -/

/-- C6: decoding a packed date-time whose time-zone-specifier equals
the timezone-aware marker 2 FAILS even though the four offset bytes
are present, because QDateTime.__init__ raises ValueError exactly when
timespec = 2 and an offset is supplied - the opposite of its own assert
and error message; a non-timezone specifier decodes fine in 13 bytes.
This contradicts the claim, which says such a decode succeeds after
consuming 13 + 4 bytes. -/
theorem c6_qdatetime_timezone_decode_fails :
    deserializeField Fmt.dt [0, 0, 0, 0, 0, 0, 0, 0, 0, 0, 0, 0, 2, 0, 0, 0, 1] = none ∧
    deserializeField Fmt.dt [0, 0, 0, 0, 0, 0, 0, 0, 0, 0, 0, 0, 1] =
      some (Val.dtv 0 0 1 none, 13) := by
  decide

/-! ## Claim C8: string field length prefix -/

/-- C8: UTF8_String.serialize writes the CHARACTER count, not the byte
count, as the length prefix: the one-character string with code point
233 (two UTF-8 bytes 195, 169) is encoded as length 1 followed by the
single truncated byte 195, which does not even decode; so the claimed
byte-count length prefix does not hold, while the null-string sentinel
part of the claim does. -/
theorem c8_utf8_length_is_char_count :
    serializeField Fmt.utf8 (Val.str [233]) = some [0, 0, 0, 1, 195] ∧
    (utf8Encode [233]).length = 2 ∧
    deserializeField Fmt.utf8 [0, 0, 0, 1, 195] = none ∧
    serializeField Fmt.utf8 Val.null = some [255, 255, 255, 255] := by
  decide

/-! ## Lemmas: the prefix scan of callsign_lookup -/

theorem scanPfx_succ_hit (t : CTYTable) (cs : List Char) (n : Nat) (e : CtyEntry)
    (h : lookupA (cs.take (n + 1)) t.pfxTab = some e) :
    scanPfx t cs (n + 1) = some e := by
  unfold scanPfx
  rw [h]

theorem scanPfx_succ_miss (t : CTYTable) (cs : List Char) (n : Nat)
    (h : lookupA (cs.take (n + 1)) t.pfxTab = none) :
    scanPfx t cs (n + 1) = scanPfx t cs n := by
  conv_lhs => rw [scanPfx]
  rw [h]

theorem scanPfx_some_iff (t : CTYTable) (cs : List Char) (n : Nat) (e : CtyEntry) :
    scanPfx t cs n = some e ↔
      ∃ m, 1 ≤ m ∧ m ≤ n ∧ lookupA (cs.take m) t.pfxTab = some e ∧
        ∀ m', m < m' → m' ≤ n → lookupA (cs.take m') t.pfxTab = none := by
  induction n with
  | zero =>
    constructor
    · intro h
      exact Option.noConfusion h
    · rintro ⟨m, h1, h2, -, -⟩
      omega
  | succ n ih =>
    cases h : lookupA (cs.take (n + 1)) t.pfxTab with
    | some x =>
      rw [scanPfx_succ_hit t cs n x h]
      constructor
      · intro hs
        injection hs with he
        subst he
        exact ⟨n + 1, by omega, Nat.le_refl _, h, fun m' h1 h2 => absurd h1 (by omega)⟩
      · rintro ⟨m, h1, h2, h3, h4⟩
        by_cases hm : m = n + 1
        · subst hm
          rw [h3] at h
          exact h.symm
        · rw [h4 (n + 1) (by omega) (Nat.le_refl _)] at h
          exact Option.noConfusion h
    | none =>
      rw [scanPfx_succ_miss t cs n h, ih]
      constructor
      · rintro ⟨m, h1, h2, h3, h4⟩
        refine ⟨m, h1, by omega, h3, fun m' hm1 hm2 => ?_⟩
        by_cases hm' : m' = n + 1
        · subst hm'
          exact h
        · exact h4 m' hm1 (by omega)
      · rintro ⟨m, h1, h2, h3, h4⟩
        have hm : ¬ m = n + 1 := by
          intro he
          subst he
          rw [h3] at h
          exact Option.noConfusion h
        exact ⟨m, h1, by omega, h3, fun m' hm1 hm2 => h4 m' hm1 (by omega)⟩

/-! ## Claim C3: callsign resolution -/

/-- C3: callsign_lookup (a) returns the exact-table entry whenever the
full callsign is registered there; (b) when it is not, its answer is
exactly the entry of the longest matching prefix: some e holds iff some
scanned length m in 1..prf_max has the prefix cs.take m bound to e and
every longer scanned length misses; (c) it returns none when the exact
table and every scanned prefix length miss; and on the demonstration
table with prefixes K, KH6, KH6Z, OE and exact entry OE3RSU, (d)
KH6ZZZ resolves to the KH6Z entry and (e) OE3RSU resolves to its
exact entry, not the OE prefix entry. -/
theorem c3_callsign_lookup_resolution :
    (∀ (t : CTYTable) (cs : List Char) (e : CtyEntry),
      lookupA cs t.exact = some e → callsign_lookup t cs = some e) ∧
    (∀ (t : CTYTable) (cs : List Char) (e : CtyEntry),
      lookupA cs t.exact = none →
        (callsign_lookup t cs = some e ↔
          ∃ m, 1 ≤ m ∧ m ≤ t.prf_max ∧ lookupA (cs.take m) t.pfxTab = some e ∧
            ∀ m', m < m' → m' ≤ t.prf_max → lookupA (cs.take m') t.pfxTab = none)) ∧
    (∀ (t : CTYTable) (cs : List Char),
      lookupA cs t.exact = none →
      (∀ m, 1 ≤ m → m ≤ t.prf_max → lookupA (cs.take m) t.pfxTab = none) →
      callsign_lookup t cs = none) ∧
    callsign_lookup demoCTY ((r"KH6ZZZ").toList) = some eHawaiiZ ∧
    callsign_lookup demoCTY ((r"OE3RSU").toList) = some eAustria := by
  refine ⟨?_, ?_, ?_, by decide, by decide⟩
  · intro t cs e h
    unfold callsign_lookup
    rw [h]
  · intro t cs e h
    unfold callsign_lookup
    rw [h]
    exact scanPfx_some_iff t cs t.prf_max e
  · intro t cs h hall
    unfold callsign_lookup
    rw [h]
    cases hs : scanPfx t cs t.prf_max with
    | none => rfl
    | some e =>
      obtain ⟨m, h1, h2, h3, -⟩ := (scanPfx_some_iff t cs t.prf_max e).mp hs
      rw [hall m h1 h2] at h3
      exact Option.noConfusion h3

/-- C3 witness: exact-match precedence applied on the demonstration
table at OE3RSU, discharging the exact-table hypothesis by
computation. -/
theorem c3_callsign_lookup_resolution_witness :
    callsign_lookup demoCTY ((r"OE3RSU").toList) = some eAustria :=
  c3_callsign_lookup_resolution.1 demoCTY ((r"OE3RSU").toList) eAustria (by decide)

/-! ## Lemmas: the classifier -/

theorem applyLookup_err (pm : ParsedMsg) (t : CTYTable) (c : List Char) :
    (applyLookup pm t c).err = pm.err := by
  unfold applyLookup
  split <;> rfl

theorem applyLookup_mtype (pm : ParsedMsg) (t : CTYTable) (c : List Char) :
    (applyLookup pm t c).mtype = pm.mtype := by
  unfold applyLookup
  split <;> rfl

theorem applyLookup_caller (pm : ParsedMsg) (t : CTYTable) (c : List Char) :
    (applyLookup pm t c).caller = pm.caller := by
  unfold applyLookup
  split <;> rfl

theorem applyLookup_peer (pm : ParsedMsg) (t : CTYTable) (c : List Char) :
    (applyLookup pm t c).peer = pm.peer := by
  unfold applyLookup
  split <;> rfl

theorem parse_err_shape (t : CTYTable) (msg : List Char) :
    (parse_wsjtx_decode_msg t msg).err = none ∨
    ∃ e mt, parse_wsjtx_decode_msg t msg = { initPM msg with err := some e, mtype := mt } := by
  simp only [parse_wsjtx_decode_msg]
  repeat' split
  all_goals
    first
      | (right; exact ⟨_, _, rfl⟩)
      | (left; simp [applyLookup_err, initPM])

/-! ## Claim C10: an error carries no identity data -/

/-- C10: whenever parse_wsjtx_decode_msg reports a non-null error
reason, every identity field of the returned record - caller, country,
CQ zone, ITU zone, continent, latitude, longitude, UTC offset, grid and
peer - is null: each error exit returns the initial record (possibly
with mtype set) before any identity field was filled. -/
theorem c10_error_null_identity (t : CTYTable) (msg : List Char)
    (h : (parse_wsjtx_decode_msg t msg).err ≠ none) :
    (parse_wsjtx_decode_msg t msg).caller = none ∧
    (parse_wsjtx_decode_msg t msg).country = none ∧
    (parse_wsjtx_decode_msg t msg).zone_cq = none ∧
    (parse_wsjtx_decode_msg t msg).zone_itu = none ∧
    (parse_wsjtx_decode_msg t msg).continent = none ∧
    (parse_wsjtx_decode_msg t msg).lat = none ∧
    (parse_wsjtx_decode_msg t msg).lon = none ∧
    (parse_wsjtx_decode_msg t msg).gmtoff = none ∧
    (parse_wsjtx_decode_msg t msg).grid = none ∧
    (parse_wsjtx_decode_msg t msg).peer = none := by
  rcases parse_err_shape t msg with h0 | ⟨e, mt, hp⟩
  · exact absurd h0 h
  · rw [hp]
    exact ⟨rfl, rfl, rfl, rfl, rfl, rfl, rfl, rfl, rfl, rfl⟩

/-- C10 witness: the empty message errors, and every identity field of
its parse is null. -/
theorem c10_error_null_identity_witness :
    (parse_wsjtx_decode_msg ⟨[], [], 0⟩ []).caller = none ∧
    (parse_wsjtx_decode_msg ⟨[], [], 0⟩ []).country = none ∧
    (parse_wsjtx_decode_msg ⟨[], [], 0⟩ []).zone_cq = none ∧
    (parse_wsjtx_decode_msg ⟨[], [], 0⟩ []).zone_itu = none ∧
    (parse_wsjtx_decode_msg ⟨[], [], 0⟩ []).continent = none ∧
    (parse_wsjtx_decode_msg ⟨[], [], 0⟩ []).lat = none ∧
    (parse_wsjtx_decode_msg ⟨[], [], 0⟩ []).lon = none ∧
    (parse_wsjtx_decode_msg ⟨[], [], 0⟩ []).gmtoff = none ∧
    (parse_wsjtx_decode_msg ⟨[], [], 0⟩ []).grid = none ∧
    (parse_wsjtx_decode_msg ⟨[], [], 0⟩ []).peer = none :=
  c10_error_null_identity ⟨[], [], 0⟩ [] (by decide)

/-! ## Claim C4: classification of a reply -/

/-- C4 (amended): for every message text free of a semicolon (a
semicolon anywhere, even in a later token, raises the unknown-message
error - see the counterexample), when the whitespace-token list after
the marginal-decode strip starts with two tokens that both match the
full-callsign grammar and the first is none of CQ, QRZ, DE, the
classifier succeeds and stores mtype REPLAY - the source's spelling,
not the spec's REPLY - with the first token as caller and the second
as peer.  On the concrete text KA1ABC WB9XYZ RR73 it yields mtype
REPLAY, caller KA1ABC, peer WB9XYZ and a null grid (RR73 is excluded
from the grid pattern by name). -/
theorem c4_reply_classification :
    (∀ (t : CTYTable) (msg t1 t2 : List Char) (rest : List (List Char)),
      msg.contains ';' = false →
      (if stripTok ((pySplit msg).getLastD []) then (pySplit msg).dropLast
       else pySplit msg) = t1 :: t2 :: rest →
      isFullCallsign t1 = true → isFullCallsign t2 = true →
      ¬ (t1 = tokCQ ∨ t1 = tokQRZ ∨ t1 = tokDE) →
      ((parse_wsjtx_decode_msg t msg).err = none ∧
       (parse_wsjtx_decode_msg t msg).mtype = mREPLAY ∧
       (parse_wsjtx_decode_msg t msg).caller = some t1 ∧
       (parse_wsjtx_decode_msg t msg).peer = some t2)) ∧
    ((parse_wsjtx_decode_msg ⟨[], [], 0⟩ ((r"KA1ABC WB9XYZ RR73").toList)).mtype = mREPLAY ∧
     (parse_wsjtx_decode_msg ⟨[], [], 0⟩ ((r"KA1ABC WB9XYZ RR73").toList)).caller =
       some ((r"KA1ABC").toList) ∧
     (parse_wsjtx_decode_msg ⟨[], [], 0⟩ ((r"KA1ABC WB9XYZ RR73").toList)).peer =
       some ((r"WB9XYZ").toList) ∧
     (parse_wsjtx_decode_msg ⟨[], [], 0⟩ ((r"KA1ABC WB9XYZ RR73").toList)).grid = none) := by
  refine ⟨?_, by decide⟩
  intro t msg t1 t2 rest hsemi hl h1 h2 hne
  rcases hps : pySplit msg with _ | ⟨l0, ls0⟩
  · rw [hps] at hl
    simp [stripTok] at hl
  · have hmsg : ¬ msg.length = 0 := by
      intro h0
      rw [List.length_eq_zero] at h0
      subst h0
      rw [show pySplit [] = [] from rfl] at hps
      exact List.noConfusion hps
    rw [hps] at hl
    simp only [parse_wsjtx_decode_msg, hps, if_neg hmsg, hsemi, Bool.false_eq_true,
      if_false, hl]
    simp only [hne, if_false]
    simp only [h1, h2, if_true]
    rcases rest with _ | ⟨g0, restg⟩
    · refine ⟨?_, ?_, ?_, ?_⟩ <;>
        simp [applyLookup_err, applyLookup_mtype, applyLookup_caller, applyLookup_peer,
          initPM]
    · split
      · split <;>
          (refine ⟨?_, ?_, ?_, ?_⟩ <;>
            simp [applyLookup_err, applyLookup_mtype, applyLookup_caller, applyLookup_peer,
              initPM])
      · rename_i heq
        exact List.noConfusion heq

/-- C4 witness: the general reply rule applied to KA1ABC WB9XYZ with
every hypothesis checked by computation. -/
theorem c4_reply_classification_witness :
    (parse_wsjtx_decode_msg ⟨[], [], 0⟩ ((r"KA1ABC WB9XYZ").toList)).err = none ∧
    (parse_wsjtx_decode_msg ⟨[], [], 0⟩ ((r"KA1ABC WB9XYZ").toList)).mtype = mREPLAY ∧
    (parse_wsjtx_decode_msg ⟨[], [], 0⟩ ((r"KA1ABC WB9XYZ").toList)).caller =
      some ((r"KA1ABC").toList) ∧
    (parse_wsjtx_decode_msg ⟨[], [], 0⟩ ((r"KA1ABC WB9XYZ").toList)).peer =
      some ((r"WB9XYZ").toList) :=
  c4_reply_classification.1 ⟨[], [], 0⟩ ((r"KA1ABC WB9XYZ").toList)
    ((r"KA1ABC").toList) ((r"WB9XYZ").toList) [] (by decide) (by decide) (by decide)
    (by decide) (by decide)

/-- C4 counterexample: the text KA1ABC WB9XYZ A;A has two leading
full-callsign tokens, which the claim says classify as a REPLY with
caller and peer; but the semicolon in the third token makes the
classifier return the unknown-message error with mtype UNKNOWN and a
null caller.  Moreover the stored reply mtype is the string REPLAY,
which differs from the claim's REPLY. -/
theorem c4_reply_counterexample :
    (parse_wsjtx_decode_msg ⟨[], [], 0⟩ ((r"KA1ABC WB9XYZ A;A").toList)).err ≠ none ∧
    (parse_wsjtx_decode_msg ⟨[], [], 0⟩ ((r"KA1ABC WB9XYZ A;A").toList)).mtype = mUNKNOWN ∧
    (parse_wsjtx_decode_msg ⟨[], [], 0⟩ ((r"KA1ABC WB9XYZ A;A").toList)).caller = none ∧
    isFullCallsign ((r"KA1ABC").toList) = true ∧
    isFullCallsign ((r"WB9XYZ").toList) = true ∧
    mREPLAY ≠ (r"REPLY").toList := by
  decide

/-! ## Lemmas: the aggregation engine -/

theorem groupStep_none (acc : List (Nat × Group) × Nat × Nat) (m : MMsg)
    (h : m.caller = none) : groupStep acc m = acc := by
  unfold groupStep
  rw [h]

theorem foldl_groupStep_quiet :
    ∀ (msgs : List MMsg), (∀ m ∈ msgs, m.caller = none) →
      ∀ acc, msgs.foldl groupStep acc = acc
  | [], _, acc => rfl
  | a :: as, h, acc => by
    rw [List.foldl_cons, groupStep_none acc a (h a (List.mem_cons_self a as))]
    exact foldl_groupStep_quiet as (fun m hm => h m (List.mem_cons_of_mem a hm)) acc

theorem groupMinutes_quiet (msgs : List MMsg) (h : ∀ m ∈ msgs, m.caller = none) :
    groupMinutes msgs = ([], 0, 0) :=
  foldl_groupStep_quiet msgs h ([], 0, 0)

theorem upsertMin_append (ms : List MinRec) (r : MinRec)
    (h : ∀ x ∈ ms, ¬ x.ctime = r.ctime) : upsertMin ms r = ms ++ [r] := by
  unfold upsertMin
  have hany : ms.any (fun x => decide (x.ctime = r.ctime)) = false := by
    rw [List.any_eq_false]
    intro x hx
    simp [h x hx]
  rw [hany]
  simp

/-! ## Claim C9: the idle minute bucket -/

/-- C9: when every message of the batch has a null caller, the minute
phase of save_monitor_data depends only on the current wall-clock
minute t = now - now % 60: if no minute row is persisted for t, the
minute table becomes the old table with exactly one appended idle row
(total 0, empty message list and counter maps); if a row for t exists,
the minute table is left unchanged.  (The hour phase never touches the
minute table.) -/
theorem c9_idle_minute (st : Store) (now : Nat) (msgs : List MMsg)
    (hquiet : ∀ m ∈ msgs, m.caller = none) :
    (fetch_in_minutes st (now - now % 60) (now - now % 60) = [] →
      (save_monitor_data st now msgs).mins = st.mins ++ [idleMin (now - now % 60)]) ∧
    (fetch_in_minutes st (now - now % 60) (now - now % 60) ≠ [] →
      (save_monitor_data st now msgs).mins = st.mins) := by
  have hg : groupMinutes msgs = ([], 0, 0) := groupMinutes_quiet msgs hquiet
  constructor
  · intro hf
    have hfloor : (now - now % 60) % 60 = 0 := by omega
    have hne : ∀ x ∈ st.mins, ¬ x.ctime = now - now % 60 := by
      intro x hx he
      have hf2 := hf
      unfold fetch_in_minutes at hf2
      rw [if_pos hfloor] at hf2
      unfold db_read_minutes at hf2
      rw [List.filter_eq_nil_iff] at hf2
      exact hf2 x hx (by simp [he])
    have hup : upsertMin st.mins (idleMin (now - now % 60)) =
        st.mins ++ [idleMin (now - now % 60)] :=
      upsertMin_append st.mins (idleMin (now - now % 60)) (by simpa [idleMin] using hne)
    simp only [save_monitor_data, hg, hf, hup, List.foldl_nil]
    simp
    split <;> simp
  · intro hf
    simp only [save_monitor_data, hg, List.foldl_nil, if_neg hf]
    simp
    split <;> simp

/-- C9 witness: a batch whose one message has a null caller, ingested
into an empty store at wall-clock 90, appends exactly the idle row for
minute 60. -/
theorem c9_idle_minute_witness :
    (save_monitor_data ⟨[], []⟩ 90 [⟨100, 5, none, none, none⟩]).mins =
      (⟨[], []⟩ : Store).mins ++ [idleMin (90 - 90 % 60)] :=
  (c9_idle_minute ⟨[], []⟩ 90 [⟨100, 5, none, none, none⟩] (by decide)).1 (by decide)

/-! ## Claim C7: merging a group into an existing minute bucket -/

/-- C7: whenever the minute fetch finds an existing row, the group
merge updates the store by upserting a merged row that keeps the row's
ctime, concatenates the message lists, recomputes total as old + new,
recomputes the mean SNR as the Python-rounded weighted mean
(old_mean*old_total + new_mean*new_total)/(old_total + new_total) with
new_mean the Python-rounded group mean, and sums each counter map
key-wise; numerically, old (total 3, mean 10) merged with new (total
2, mean 20) gives round(70/5) = 14; and a concrete run over a stored
row (total 3, mean 10) and a two-message group summing to 40 yields
the row (total 5, snr 14). -/
theorem c7_minute_merge :
    (∀ (st : Store) (mt : Nat) (g : Group) (dbrec : MinRec) (rest : List MinRec),
      fetch_in_minutes st mt mt = dbrec :: rest →
      ∃ merged, processMinute st mt g = { st with mins := upsertMin st.mins merged } ∧
        merged.ctime = dbrec.ctime ∧
        merged.total = dbrec.total + g.total ∧
        merged.snr = pyRoundQ (dbrec.snr * (dbrec.total : Int) +
            pyRoundQ g.snr (g.total : Int) * (g.total : Int))
          ((dbrec.total : Int) + (g.total : Int)) ∧
        merged.messages = dbrec.messages ++ g.messages ∧
        merged.countries = mergeCounts dbrec.countries g.countries ∧
        merged.cqs = mergeCounts dbrec.cqs g.cqs ∧
        merged.callers = mergeCounts dbrec.callers g.callers) ∧
    pyRoundQ ((10 : Int) * 3 + pyRoundQ 40 2 * 2) 5 = 14 ∧
    (processMinute ⟨[⟨60, [], 3, 10, [], [], []⟩], []⟩ 60
        ⟨[⟨60, 18, some ['K'], none, none⟩, ⟨119, 22, some ['K'], none, none⟩], 2, 40,
          [], [], [(['K'], 2)]⟩).mins =
      [⟨60, [⟨60, 18, some ['K'], none, none⟩, ⟨119, 22, some ['K'], none, none⟩], 5,
        14, [], [], [(['K'], 2)]⟩] := by
  refine ⟨?_, by decide, by decide⟩
  intro st mt g dbrec rest hf
  unfold processMinute
  rw [hf]
  exact ⟨_, rfl, rfl, rfl, rfl, rfl, rfl, rfl, rfl⟩

/-- C7 witness: the merge rule applied to a concrete store holding one
row at minute 0 (total 1, mean 1) and a group of total 1, snr sum 7. -/
theorem c7_minute_merge_witness :
    ∃ merged, processMinute ⟨[⟨0, [], 1, 1, [], [], []⟩], []⟩ 0 ⟨[], 1, 7, [], [], []⟩ =
        { (⟨[⟨0, [], 1, 1, [], [], []⟩], []⟩ : Store) with
            mins := upsertMin (⟨[⟨0, [], 1, 1, [], [], []⟩], []⟩ : Store).mins merged } ∧
      merged.ctime = (⟨0, [], 1, 1, [], [], []⟩ : MinRec).ctime ∧
      merged.total = (⟨0, [], 1, 1, [], [], []⟩ : MinRec).total + (1 : Nat) ∧
      merged.snr = pyRoundQ ((1 : Int) * (1 : Int) + pyRoundQ 7 1 * (1 : Int))
        ((1 : Int) + (1 : Int)) ∧
      merged.messages = ([] : List MMsg) ++ ([] : List MMsg) ∧
      merged.countries = mergeCounts [] [] ∧
      merged.cqs = mergeCounts [] [] ∧
      merged.callers = mergeCounts [] [] :=
  c7_minute_merge.1 ⟨[⟨0, [], 1, 1, [], [], []⟩], []⟩ 0 ⟨[], 1, 7, [], [], []⟩
    ⟨0, [], 1, 1, [], [], []⟩ [] (by decide)

/-! ## Claim C2: the hour-sum invariant -/

/-- C2: the invariant fails.  Ingesting one message at epoch 7200, then
a batch holding messages at epochs 3600 and 7260, leaves minute rows
for hour 7200 summing to 2 (minutes 7200 and 7260) while the hour row
at 7200 records total 1: the second call floors only m_begin (3600) to
the hour and fetches just that hour into its cache, so the touched hour
7200 misses the cache and its upsert OVERWRITES the existing row
instead of merging. -/
theorem c2_hour_total_mismatch :
    hourTotalAt
        (save_monitor_data
          (save_monitor_data ⟨[], []⟩ 0 [⟨7200, 0, some ['K'], none, none⟩]) 0
          [⟨3600, 0, some ['K'], none, none⟩, ⟨7260, 0, some ['K'], none, none⟩])
        7200 = some 1 ∧
    minuteTotalsInHour
        (save_monitor_data
          (save_monitor_data ⟨[], []⟩ 0 [⟨7200, 0, some ['K'], none, none⟩]) 0
          [⟨3600, 0, some ['K'], none, none⟩, ⟨7260, 0, some ['K'], none, none⟩])
        7200 = 2 := by
  decide

end FT8

